import Mathlib

/-!
Verification of the transaction-envelope codec, TokenId address mapping and
viem serializer dispatch of the tempo-ts repository, as a shallow embedding.

Bytes are modelled as `Nat` values (< 256 where produced by the code), byte
strings as `List Nat`, unbounded JS `bigint` values as `Nat`.
-/

set_option maxRecDepth 10000

/-- Minimal big-endian byte representation of a natural number; `0` encodes as
the empty byte string.  Fuel-based so that the kernel can evaluate it; the fuel
argument `n` itself always suffices. -/
def beBytesAux : Nat → Nat → List Nat
  | 0, _ => []
  | f + 1, n => if n = 0 then [] else beBytesAux f (n / 256) ++ [n % 256]

/-- Minimal big-endian bytes of `n` (`Hex.fromNumber` without padding). -/
def beBytes (n : Nat) : List Nat := beBytesAux n n

/-- Big-endian interpretation of a byte string (`Hex.toBigInt`). -/
def beToNat (bs : List Nat) : Nat := bs.foldl (fun a b => a * 256 + b) 0

/-- Left-pad the minimal big-endian bytes of `n` with zero bytes to width `w`
(`Hex.fromNumber(n, { size: w })` for values that fit). -/
def padBE (w : Nat) (n : Nat) : List Nat :=
  List.replicate (w - (beBytes n).length) 0 ++ beBytes n

theorem beToNat_append_digit (bs : List Nat) (b : Nat) :
    beToNat (bs ++ [b]) = beToNat bs * 256 + b := by
  simp [beToNat, List.foldl_append]

theorem beToNat_beBytesAux (f n : Nat) (h : n ≤ f) : beToNat (beBytesAux f n) = n := by
  induction f generalizing n with
  | zero => interval_cases n; simp [beBytesAux, beToNat]
  | succ f ih =>
    by_cases h0 : n = 0
    · simp [beBytesAux, h0, beToNat]
    · rw [beBytesAux, if_neg h0, beToNat_append_digit, ih (n / 256) ?_]
      · omega
      · have : n / 256 < n := Nat.div_lt_self (Nat.pos_of_ne_zero h0) (by norm_num)
        omega

theorem beToNat_beBytes (n : Nat) : beToNat (beBytes n) = n :=
  beToNat_beBytesAux n n le_rfl

theorem beBytesAux_length (f n k : Nat) (hn : n ≤ f) (h : n < 256 ^ k) :
    (beBytesAux f n).length ≤ k := by
  induction f generalizing n k with
  | zero => interval_cases n; simp [beBytesAux]
  | succ f ih =>
    by_cases h0 : n = 0
    · simp [beBytesAux, h0]
    · rw [beBytesAux, if_neg h0]
      have hkpos : k ≠ 0 := by
        intro hk; rw [hk] at h; simp at h; omega
      obtain ⟨k', rfl⟩ := Nat.exists_eq_succ_of_ne_zero hkpos
      have hdiv : n / 256 < 256 ^ k' := by
        rw [Nat.div_lt_iff_lt_mul (by norm_num)]
        calc n < 256 ^ (k' + 1) := h
        _ = 256 ^ k' * 256 := by ring
      have hle : n / 256 ≤ f := by
        have : n / 256 < n := Nat.div_lt_self (Nat.pos_of_ne_zero h0) (by norm_num)
        omega
      have := ih (n / 256) k' hle hdiv
      simp only [List.length_append, List.length_cons, List.length_nil]
      omega

theorem beBytes_length_le (n k : Nat) (h : n < 256 ^ k) : (beBytes n).length ≤ k :=
  beBytesAux_length n n k le_rfl h

theorem beBytes_zero : beBytes 0 = [] := by simp [beBytes, beBytesAux]

theorem beBytes_eq_nil_iff (n : Nat) : beBytes n = [] ↔ n = 0 := by
  constructor
  · intro h
    have := beToNat_beBytes n
    rw [h] at this
    simpa [beToNat] using this.symm
  · intro h; simp [h, beBytes_zero]

/-- Leading zero bytes do not change the big-endian value. -/
theorem beToNat_replicate_zero_append (k : Nat) (bs : List Nat) :
    beToNat (List.replicate k 0 ++ bs) = beToNat bs := by
  induction k with
  | zero => simp
  | succ k ih =>
    have : List.replicate (k + 1) 0 ++ bs = 0 :: (List.replicate k 0 ++ bs) := by
      simp [List.replicate_succ]
    rw [this]
    simpa [beToNat] using ih

theorem beToNat_padBE (w n : Nat) : beToNat (padBE w n) = n := by
  rw [padBE, beToNat_replicate_zero_append, beToNat_beBytes]

theorem beBytesAux_fuel_irrel (f f' n : Nat) (h : n ≤ f) (h' : n ≤ f') :
    beBytesAux f n = beBytesAux f' n := by
  induction f generalizing f' n with
  | zero => interval_cases n; cases f' <;> simp [beBytesAux]
  | succ f ih =>
    by_cases h0 : n = 0
    · subst h0; cases f' <;> simp [beBytesAux]
    · obtain ⟨f'', rfl⟩ : ∃ k, f' = k + 1 := ⟨f' - 1, by omega⟩
      rw [beBytesAux, beBytesAux, if_neg h0, if_neg h0]
      have hdiv : n / 256 < n := Nat.div_lt_self (Nat.pos_of_ne_zero h0) (by norm_num)
      rw [ih f'' (n / 256) (by omega) (by omega)]

theorem beBytes_mul_add (a d : Nat) (hd : d < 256) (hnz : ¬(a = 0 ∧ d = 0)) :
    beBytes (a * 256 + d) = beBytes a ++ [d] := by
  have hnz' : a ≠ 0 ∨ d ≠ 0 := by tauto
  rw [beBytes]
  obtain ⟨f, hf⟩ : ∃ k, a * 256 + d = k + 1 := ⟨a * 256 + d - 1, by omega⟩
  rw [hf, beBytesAux, if_neg (by omega)]
  have hdiv : (f + 1) / 256 = a := by omega
  have hmod : (f + 1) % 256 = d := by omega
  rw [hdiv, hmod, beBytesAux_fuel_irrel f a a (by omega) le_rfl]
  rfl

/-- Re-encoding the big-endian value of a byte string recovers the string with
its leading zero bytes stripped. -/
theorem beBytes_beToNat (bs : List Nat) (h : ∀ b ∈ bs, b < 256) :
    beBytes (beToNat bs) = bs.dropWhile (· = 0) := by
  induction bs using List.reverseRecOn with
  | nil => simp [beToNat, beBytes_zero]
  | append_singleton init d ih =>
    have hd : d < 256 := h d (by simp)
    have hinit : ∀ b ∈ init, b < 256 := fun b hb => h b (by simp [hb])
    rw [beToNat_append_digit]
    by_cases hz : beToNat init = 0 ∧ d = 0
    · rw [hz.1, hz.2]
      simp only [Nat.zero_mul, Nat.add_zero, beBytes_zero]
      have hdrop : init.dropWhile (· = 0) = [] := by
        have := ih hinit
        rw [hz.1, beBytes_zero] at this
        exact this.symm
      rw [List.dropWhile_append]
      simp [hdrop, hz.2]
    · rw [beBytes_mul_add _ d hd hz, ih hinit]
      by_cases hi : init.dropWhile (· = 0) = []
      · have hiz : beToNat init = 0 := by
          have := ih hinit
          rw [hi] at this
          have h2 := beToNat_beBytes (beToNat init)
          rw [this] at h2
          simpa [beToNat] using h2.symm
        have hdnz : d ≠ 0 := fun hdz => hz ⟨hiz, hdz⟩
        rw [List.dropWhile_append]
        simp [hi, hdnz]
      · rw [List.dropWhile_append]
        simp [hi]

/-- A string of `k` bytes denotes a value below `256 ^ k`. -/
theorem beToNat_lt (bs : List Nat) (h : ∀ b ∈ bs, b < 256) :
    beToNat bs < 256 ^ bs.length := by
  induction bs using List.reverseRecOn with
  | nil => simp [beToNat]
  | append_singleton init d ih =>
    rw [beToNat_append_digit]
    have hd : d < 256 := h d (by simp)
    have hi := ih (fun b hb => h b (by simp [hb]))
    simp only [List.length_append, List.length_cons, List.length_nil]
    calc beToNat init * 256 + d < (beToNat init + 1) * 256 := by omega
    _ ≤ 256 ^ init.length * 256 := Nat.mul_le_mul_right 256 hi
    _ = 256 ^ (init.length + 1) := by ring

/-- Padding the re-encoded value of a `w`-byte string recovers the string. -/
theorem padBE_beToNat (w : Nat) (bs : List Nat) (hlen : bs.length = w)
    (h : ∀ b ∈ bs, b < 256) : padBE w (beToNat bs) = bs := by
  rw [padBE, beBytes_beToNat bs h]
  have hsplit := List.takeWhile_append_dropWhile (p := (· = 0)) (l := bs)
  have htake : bs.takeWhile (· = 0) =
      List.replicate (bs.takeWhile (· = 0)).length 0 := by
    apply List.eq_replicate_of_mem
    intro b hb
    have := List.mem_takeWhile_imp hb
    simpa using this
  have hlen2 : (bs.takeWhile (· = 0)).length + (bs.dropWhile (· = 0)).length = w := by
    rw [← hlen, ← List.length_append, hsplit]
  have : w - (bs.dropWhile (· = 0)).length = (bs.takeWhile (· = 0)).length := by omega
  rw [this, ← htake, hsplit]

theorem padBE_length (w n : Nat) (h : n < 256 ^ w) : (padBE w n).length = w := by
  have := beBytes_length_le n w h
  simp [padBE]
  omega

/-! ## TokenId address mapping (src: ox/TokenId.ts, compiled copy dist/ox/TokenId.js)

`tip20Prefix = '0x20c0'` is a two-byte constant, but the code slices the
address at `tip20Prefix.length = 6` (the JavaScript *string* length), and
`Hex.slice` works on *byte* offsets, so `fromAddress` discards the first six
bytes of the address and decodes only the final fourteen. -/

/-- The two bytes of the constant `tip20Prefix = '0x20c0'`. -/
def tip20PrefixBytes : List Nat := [0x20, 0xc0]

/-- Source: `toAddress(tokenId)` = `Hex.concat(tip20Prefix, Hex.fromNumber(tokenId, { size: 18 }))`.
`Hex.fromNumber` with `size: 18` throws when the value does not fit 18 bytes,
modelled as `none`. -/
def toAddress (tokenId : Nat) : Option (List Nat) :=
  if tokenId < 256 ^ 18 then some (tip20PrefixBytes ++ padBE 18 tokenId) else none

/-- Source: `fromAddress(address)` checks that the address string starts with
`tip20Prefix` and returns `Hex.toBigInt(Hex.slice(address, tip20Prefix.length))`.
`tip20Prefix.length` is `6` (string length of `'0x20c0'`) and `Hex.slice`
slices at byte offsets, so six leading bytes are dropped.  The failed check
throws, modelled as `none`. -/
def fromAddress (address : List Nat) : Option Nat :=
  if address.take 2 = tip20PrefixBytes then some (beToNat (address.drop 6)) else none

theorem take_drop_prefix_pad (n : Nat) :
    (tip20PrefixBytes ++ padBE 18 n).drop 6 = (padBE 18 n).drop 4 := by
  simp [tip20PrefixBytes]

/-- Helper: the TokenId round trip holds exactly on values fitting 14 bytes. -/
theorem tokenId_roundtrip_aux (n : Nat) (h : n < 256 ^ 14) :
    (toAddress n).bind fromAddress = some n := by
  have h18 : n < 256 ^ 18 := lt_of_lt_of_le h (by norm_num)
  rw [toAddress, if_pos h18]
  show fromAddress (tip20PrefixBytes ++ padBE 18 n) = some n
  rw [fromAddress, if_pos (by simp [tip20PrefixBytes])]
  rw [take_drop_prefix_pad n]
  have hlen : (beBytes n).length ≤ 14 := beBytes_length_le n 14 h
  have : (padBE 18 n).drop 4 = List.replicate (14 - (beBytes n).length) 0 ++ beBytes n := by
    rw [padBE]
    have h4 : 18 - (beBytes n).length = 4 + (14 - (beBytes n).length) := by omega
    rw [h4, List.replicate_add, List.append_assoc]
    rfl
  rw [this, beToNat_replicate_zero_append, beToNat_beBytes]

/-- C8: the claimed round trip for all 18-byte-representable ids fails at
`n = 2^112`: the address encodes `n` in the final 18 bytes, but `fromAddress`
reads only the final 14 bytes, returning `0`. -/
theorem tokenId_roundtrip_counterexample :
    (toAddress (2 ^ 112)).bind fromAddress = some 0 ∧ (0 : Nat) ≠ 2 ^ 112 := by
  constructor
  · decide
  · decide

/-- C8 (amended): `fromAddress (toAddress n) = n` for every `n` representable
in 14 bytes (`n < 2^112`), the width actually decoded by `fromAddress`. -/
theorem tokenId_roundtrip (n : Nat) (h : n < 256 ^ 14) :
    (toAddress n).bind fromAddress = some n :=
  tokenId_roundtrip_aux n h

/-- C8 witness at `n = 0xdef`. -/
theorem tokenId_roundtrip_witness :
    (0xdef : Nat) < 256 ^ 14 ∧ (toAddress 0xdef).bind fromAddress = some 0xdef :=
  ⟨by norm_num, tokenId_roundtrip 0xdef (by norm_num)⟩

/-- C9: the address produced by `toAddress` is 20 bytes, so it cannot be a
5-byte constant followed by an 18-byte fixed-width encoding (23 bytes). -/
theorem tokenId_toAddress_counterexample :
    toAddress 0 = some (tip20PrefixBytes ++ List.replicate 18 0) ∧
      (tip20PrefixBytes ++ List.replicate 18 0).length = 20 ∧
      ¬∃ p s : List Nat, p.length = 5 ∧ s.length = 18 ∧
        tip20PrefixBytes ++ List.replicate 18 0 = p ++ s := by
  refine ⟨by decide, by decide, ?_⟩
  rintro ⟨p, s, hp, hs, h⟩
  have := congrArg List.length h
  simp [tip20PrefixBytes, hp, hs] at this

/-- The address subspace over which the pair really is a bijection: two-byte
constant `0x20c0`, four zero bytes, then a 14-byte big-endian id. -/
def ValidTip20Address (a : List Nat) : Prop :=
  ∃ bs : List Nat, bs.length = 14 ∧ (∀ b ∈ bs, b < 256) ∧
    a = tip20PrefixBytes ++ List.replicate 4 0 ++ bs

/-- C9 (amended): `toAddress id` is the constant 2-byte value `0x20c0`
followed by the fixed-width 18-byte big-endian encoding of `id`; `fromAddress`
checks the 2-byte value and decodes the final 14 bytes of the address
(discarding the four bytes that follow the constant), so the pair is mutually
inverse exactly over ids below `2^112` and over addresses of that shape whose
bytes 2..5 are zero. -/
theorem tokenId_mapping (n : Nat) (a : List Nat) (h : n < 256 ^ 18)
    (ha : ValidTip20Address a) :
    toAddress n = some (tip20PrefixBytes ++ padBE 18 n) ∧
      (tip20PrefixBytes ++ padBE 18 n).length = 20 ∧
      (n < 256 ^ 14 → (toAddress n).bind fromAddress = some n) ∧
      ∃ m, fromAddress a = some m ∧ m < 256 ^ 14 ∧ toAddress m = some a := by
  obtain ⟨bs, hlen, hbytes, rfl⟩ := ha
  refine ⟨by rw [toAddress, if_pos h], ?_, fun h14 => tokenId_roundtrip_aux n h14, ?_⟩
  · have := padBE_length 18 n h
    simp [tip20PrefixBytes, this]
  · refine ⟨beToNat bs, ?_, ?_, ?_⟩
    · rw [fromAddress, if_pos (by simp [tip20PrefixBytes])]
      rfl
    · have := beToNat_lt bs hbytes
      rw [hlen] at this
      exact this
    · have hlt : beToNat bs < 256 ^ 14 := by
        have := beToNat_lt bs hbytes
        rw [hlen] at this
        exact this
      rw [toAddress, if_pos (lt_of_lt_of_le hlt (by norm_num))]
      congr 1
      have hpad : padBE 18 (beToNat bs) = List.replicate 4 0 ++ bs := by
        have h14 : padBE 14 (beToNat bs) = bs := padBE_beToNat 14 bs hlen hbytes
        rw [padBE] at h14 ⊢
        have hl : (beBytes (beToNat bs)).length ≤ 14 := beBytes_length_le _ 14 hlt
        have : (18 : Nat) - (beBytes (beToNat bs)).length =
            4 + (14 - (beBytes (beToNat bs)).length) := by omega
        rw [this, List.replicate_add, List.append_assoc, h14]
      rw [hpad, List.append_assoc]

theorem tokenId_mapping_witness :
    ((1 : Nat) < 256 ^ 18 ∧ ValidTip20Address
        (tip20PrefixBytes ++ List.replicate 4 0 ++ List.replicate 14 0)) ∧
      toAddress 1 = some (tip20PrefixBytes ++ padBE 18 1) :=
  ⟨⟨by norm_num, ⟨List.replicate 14 0, by simp, by simp, rfl⟩⟩,
    (tokenId_mapping 1 (tip20PrefixBytes ++ List.replicate 4 0 ++ List.replicate 14 0)
      (by norm_num) ⟨List.replicate 14 0, by simp, by simp, rfl⟩).1⟩

/-! ## viem serializeTransaction (src/src/viem/serializers.ts)

The fallback branch of `serializeTransaction` calls `serializeTransaction`
itself with unchanged arguments, so for a transaction that is not of type
`'feeToken'` and has no `feeToken` field the function never returns.  The
recursion is modelled with explicit fuel: no amount of fuel produces a result. -/

/-- The fields of the argument that the dispatch in
`serializeTransaction` inspects: `transaction.type === 'feeToken'` and the
truthiness of `transaction.feeToken`. -/
structure SerializerTx where
  typeIsFeeToken : Bool
  feeToken : Option (List Nat)
deriving DecidableEq

/-- Modelled from the spec: `TxFeeToken.serialize` lives outside `src/`; only
the dispatch structure of `serializeTransaction` matters for the claim, so the
taken branch is represented by an abstract result tag. -/
def feeTokenBranchResult (tx : SerializerTx) : List Nat := 0x77 :: (tx.feeToken.getD [])

/-- Source: `serializeTransaction` of `src/src/viem/serializers.ts`,
unrolled with fuel.  The guard is `transaction.type === 'feeToken' ||
transaction.feeToken`; the else-branch is the literal self-call
`serializeTransaction(transaction, signature)` with unchanged arguments. -/
def serializeTransactionF : Nat → SerializerTx → Option (List Nat)
  | 0, _ => none
  | fuel + 1, tx =>
    if tx.typeIsFeeToken || tx.feeToken.isSome then some (feeTokenBranchResult tx)
    else serializeTransactionF fuel tx

/-- C10: for every transaction that is not of type `'feeToken'` and carries no
`feeToken` field, the self-recursive fallback of `serializeTransaction` never
produces wire bytes, at any recursion depth. -/
theorem serializeTransaction_diverges (fuel : Nat) (tx : SerializerTx)
    (htype : tx.typeIsFeeToken = false) (htoken : tx.feeToken = none) :
    serializeTransactionF fuel tx = none := by
  induction fuel with
  | zero => rfl
  | succ fuel ih =>
    rw [serializeTransactionF, htype, htoken]
    simpa using ih

/-- C10 witness: a concrete non-feeToken transaction at depth 1000. -/
theorem serializeTransaction_diverges_witness :
    serializeTransactionF 1000 ⟨false, none⟩ = none :=
  serializeTransaction_diverges 1000 ⟨false, none⟩ rfl rfl

/-! ## RLP primitives

The list-encoding primitive is the trusted external collaborator of the
codec (ox `Rlp`); it is embedded concretely so that serialization produces
real wire bytes and deserialization parses them.  The decoder is fuel-indexed
(structural recursion on fuel) so that the kernel can evaluate it. -/

/-- An RLP item: a byte string or a list of items. -/
inductive Item where
  | str (bytes : List Nat)
  | list (items : List Item)

/-- RLP length header: `offset + len` for short payloads, else the marker
`offset + 55 + byteLength(len)` followed by the big-endian length. -/
def encLen (offset : Nat) (len : Nat) : List Nat :=
  if len ≤ 55 then [offset + len]
  else (offset + 55 + (beBytes len).length) :: beBytes len

/-- RLP encoding of a byte string: a single byte below `0x80` encodes as
itself, otherwise a `0x80`-offset header precedes the bytes. -/
def encStr (bs : List Nat) : List Nat :=
  match bs with
  | [] => [0x80]
  | [b] => if b < 0x80 then [b] else [0x81, b]
  | b :: c :: tl => encLen 0x80 (b :: c :: tl).length ++ (b :: c :: tl)

/-- RLP encoding of a list given its already-encoded payload. -/
def encList (payload : List Nat) : List Nat := encLen 0xc0 payload.length ++ payload

/-- One step of RLP item decoding, parameterized by the decoder used for
nested list payloads. -/
def decodeStep (dl : List Nat → Option (List Item)) : List Nat → Option (Item × List Nat)
  | [] => none
  | b :: tl =>
    if b ≤ 0x7f then some (.str [b], tl)
    else if b ≤ 0xb7 then
      if b - 0x80 ≤ tl.length then some (.str (tl.take (b - 0x80)), tl.drop (b - 0x80))
      else none
    else if b ≤ 0xbf then
      if b - 0xb7 ≤ tl.length then
        if beToNat (tl.take (b - 0xb7)) ≤ (tl.drop (b - 0xb7)).length then
          some (.str ((tl.drop (b - 0xb7)).take (beToNat (tl.take (b - 0xb7)))),
            (tl.drop (b - 0xb7)).drop (beToNat (tl.take (b - 0xb7))))
        else none
      else none
    else if b ≤ 0xf7 then
      if b - 0xc0 ≤ tl.length then
        (dl (tl.take (b - 0xc0))).map fun its => (.list its, tl.drop (b - 0xc0))
      else none
    else
      if b - 0xf7 ≤ tl.length then
        if beToNat (tl.take (b - 0xf7)) ≤ (tl.drop (b - 0xf7)).length then
          (dl ((tl.drop (b - 0xf7)).take (beToNat (tl.take (b - 0xf7))))).map
            fun its => (.list its, (tl.drop (b - 0xf7)).drop (beToNat (tl.take (b - 0xf7))))
        else none
      else none

mutual

/-- Fuel-indexed RLP item decoder returning the decoded item and the unread
remainder of the input. -/
def decodeItemF : Nat → List Nat → Option (Item × List Nat)
  | 0, _ => none
  | f + 1, bs => decodeStep (decodeListF f) bs

/-- Fuel-indexed decoder for a complete RLP list payload. -/
def decodeListF : Nat → List Nat → Option (List Item)
  | _, [] => some []
  | 0, _ :: _ => none
  | f + 1, b :: tl =>
    (decodeItemF f (b :: tl)).bind fun p => (decodeListF f p.2).map fun its => p.1 :: its

end

/-- `bs` RLP-decodes to item `i` consuming exactly itself, at every
sufficient fuel. -/
def DecodesItem (bs : List Nat) (i : Item) : Prop :=
  ∀ f rest, 2 * bs.length ≤ f + 1 → decodeItemF f (bs ++ rest) = some (i, rest)

/-- The payload `bs` RLP-decodes to the item sequence `its`, at every
sufficient fuel. -/
def DecodesList (bs : List Nat) (its : List Item) : Prop :=
  ∀ f, 2 * bs.length ≤ f → decodeListF f bs = some its

theorem encStr_ne_nil (bs : List Nat) : encStr bs ≠ [] := by
  match bs with
  | [] => simp [encStr]
  | [b] => by_cases h : b < 0x80 <;> simp [encStr, h]
  | b :: c :: tl =>
    rw [encStr, encLen]
    split <;> simp

theorem encList_ne_nil (p : List Nat) : encList p ≠ [] := by
  rw [encList, encLen]
  split <;> simp

theorem beBytes_len_pos (n : Nat) (h : 0 < n) : 1 ≤ (beBytes n).length := by
  rcases Nat.eq_zero_or_pos (beBytes n).length with h0 | h1
  · exfalso
    have := List.length_eq_zero.mp h0
    rw [beBytes_eq_nil_iff] at this
    omega
  · exact h1

theorem decodesItem_encStr (bs : List Nat) (h : bs.length < 2 ^ 64) :
    DecodesItem (encStr bs) (.str bs) := by
  intro f rest hf
  match bs with
  | [b] =>
    by_cases hb : b < 0x80
    · rw [encStr, if_pos hb] at hf ⊢
      obtain ⟨g, rfl⟩ : ∃ g, f = g + 1 := ⟨f - 1, by simp at hf; omega⟩
      rw [List.cons_append, List.nil_append]
      simp only [decodeItemF]
      rw [decodeStep.eq_2, if_pos (by omega)]
    · rw [encStr, if_neg hb] at hf ⊢
      obtain ⟨g, rfl⟩ : ∃ g, f = g + 1 := ⟨f - 1, by simp at hf; omega⟩
      rw [List.cons_append, List.cons_append, List.nil_append]
      simp only [decodeItemF]
      rw [decodeStep.eq_2, if_neg (by omega), if_pos (by omega)]
      simp
  | [] =>
    rw [encStr] at hf ⊢
    obtain ⟨g, rfl⟩ : ∃ g, f = g + 1 := ⟨f - 1, by simp at hf; omega⟩
    rw [List.cons_append, List.nil_append]
    simp only [decodeItemF]
    rw [decodeStep.eq_2, if_neg (by omega), if_pos (by omega)]
    simp
  | b :: c :: tl =>
    rw [encStr] at hf ⊢
    by_cases hlen : (b :: c :: tl).length ≤ 55
    · rw [encLen, if_pos hlen] at hf ⊢
      obtain ⟨g, rfl⟩ : ∃ g, f = g + 1 := ⟨f - 1, by simp at hf; omega⟩
      rw [List.append_assoc, List.cons_append, List.nil_append]
      simp only [decodeItemF]
      rw [decodeStep.eq_2]
      have hl2 : (b :: c :: tl).length ≤ 55 := hlen
      simp only [List.length_cons] at hl2
      rw [if_neg (by simp; omega), if_pos (by simp; omega)]
      have hn : 0x80 + (b :: c :: tl).length - 0x80 = (b :: c :: tl).length := by omega
      rw [hn, if_pos (by simp)]
      rw [List.take_left, List.drop_left]
    · rw [encLen, if_neg hlen] at hf ⊢
      have hll1 : 1 ≤ (beBytes (b :: c :: tl).length).length :=
        beBytes_len_pos _ (by simp)
      have hll8 : (beBytes (b :: c :: tl).length).length ≤ 8 :=
        beBytes_length_le _ 8 (by norm_num at h ⊢; omega)
      obtain ⟨g, rfl⟩ : ∃ g, f = g + 1 := ⟨f - 1, by simp at hf; omega⟩
      rw [List.append_assoc, List.cons_append]
      simp only [decodeItemF]
      rw [decodeStep.eq_2]
      rw [if_neg (by omega), if_neg (by omega), if_pos (by omega)]
      have hll : 0x80 + 55 + (beBytes (b :: c :: tl).length).length - 0xb7 =
          (beBytes (b :: c :: tl).length).length := by omega
      rw [hll]
      rw [if_pos (by simp)]
      rw [List.take_left, List.drop_left, beToNat_beBytes]
      rw [if_pos (by simp)]
      rw [List.take_left, List.drop_left]

theorem decodesItem_encList (p : List Nat) (its : List Item)
    (hp : DecodesList p its) (h : p.length < 2 ^ 64) :
    DecodesItem (encList p) (.list its) := by
  intro f rest hf
  by_cases hlen : p.length ≤ 55
  · rw [encList, encLen, if_pos hlen] at hf ⊢
    obtain ⟨g, rfl⟩ : ∃ g, f = g + 1 := ⟨f - 1, by simp at hf; omega⟩
    rw [List.append_assoc, List.cons_append, List.nil_append]
    simp only [decodeItemF]
    rw [decodeStep.eq_2]
    rw [if_neg (by omega), if_neg (by omega), if_neg (by omega), if_pos (by omega)]
    have hn : 0xc0 + p.length - 0xc0 = p.length := by omega
    rw [hn, if_pos (by simp)]
    rw [List.take_left, List.drop_left]
    rw [hp g (by simp at hf; omega)]
    rfl
  · rw [encList, encLen, if_neg hlen] at hf ⊢
    have hll1 : 1 ≤ (beBytes p.length).length := beBytes_len_pos _ (by omega)
    have hll8 : (beBytes p.length).length ≤ 8 :=
      beBytes_length_le _ 8 (by norm_num at h ⊢; omega)
    obtain ⟨g, rfl⟩ : ∃ g, f = g + 1 := ⟨f - 1, by simp at hf; omega⟩
    rw [List.append_assoc, List.cons_append]
    simp only [decodeItemF]
    rw [decodeStep.eq_2]
    rw [if_neg (by omega), if_neg (by omega), if_neg (by omega), if_neg (by omega)]
    have hll : 0xc0 + 55 + (beBytes p.length).length - 0xf7 =
        (beBytes p.length).length := by omega
    rw [hll, if_pos (by simp)]
    rw [List.take_left, List.drop_left, beToNat_beBytes]
    rw [if_pos (by simp)]
    rw [List.take_left, List.drop_left]
    rw [hp g (by simp at hf; omega)]
    rfl

theorem decodesList_nil : DecodesList [] [] := by
  intro f _
  cases f <;> rfl

theorem decodesList_cons (x r : List Nat) (i : Item) (is : List Item)
    (hx : x ≠ []) (hi : DecodesItem x i) (hr : DecodesList r is) :
    DecodesList (x ++ r) (i :: is) := by
  intro f hf
  obtain ⟨c, x', rfl⟩ : ∃ c x', x = c :: x' := by
    cases x with
    | nil => exact absurd rfl hx
    | cons c x' => exact ⟨c, x', rfl⟩
  obtain ⟨g, rfl⟩ : ∃ g, f = g + 1 := ⟨f - 1, by simp at hf; omega⟩
  rw [List.cons_append, decodeListF]
  rw [← List.cons_append, hi g r (by simp at hf ⊢; omega)]
  rw [Option.some_bind]
  rw [hr g (by simp at hf; omega)]
  rfl

/-- A single encoded item also decodes as a one-item payload. -/
theorem decodesList_single (x : List Nat) (i : Item)
    (hx : x ≠ []) (hi : DecodesItem x i) : DecodesList x [i] := by
  have := decodesList_cons x [] i [] hx hi decodesList_nil
  simpa using this

/-! ## TransactionEnvelopeAA data model

Modelled from the spec: the implementation module `TransactionEnvelopeAA.ts`
is absent from the repository snapshot (only its test file is present), so the
envelope type, `assert`, `from`, `serialize`, `deserialize`, the sign-payload
derivations and `validate` are reconstructed from the specification (§3, §4.2,
§6, §7) and pinned against the wire-format vectors of the test file. -/

/-- A batched sub-call `{ to?, value?, data? }`. -/
structure Call where
  «to» : Option (List Nat) := none
  value : Option Nat := none
  data : Option (List Nat) := none
deriving DecidableEq

/-- An access-list entry `{ address, storageKeys }`, carried verbatim. -/
structure AccessListEntry where
  address : List Nat
  storageKeys : List (List Nat)
deriving DecidableEq

/-- An authorization-list entry, carried verbatim. -/
structure Authorization where
  chainId : Nat
  address : List Nat
  nonce : Nat
  yParity : Nat
  r : Nat
  s : Nat
deriving DecidableEq

/-- Modelled from the spec (§4.1): the normalized signature envelope — either
a secp256k1 `{r, s, yParity}` tuple or a P-256 signature with public key and
pre-hash flag. -/
inductive SignatureEnvelope where
  | secp256k1 (r s yParity : Nat)
  | p256 (r s : Nat) (publicKey : List Nat) (prehash : Bool)
deriving DecidableEq

/-- The TypeScript value of the `feePayerSignature` field: the field may be
missing (`undefined`), explicitly `null` (sponsorship intended but unsigned),
or a `{r, s, yParity}` tuple. -/
inductive FeePayerValue where
  | undef
  | null
  | sig (yParity r s : Nat)
deriving DecidableEq

/-- A draft envelope as accepted by `from`/`assert` (bigint fields as `Nat`,
addresses and byte strings as `List Nat`). -/
structure Draft where
  chainId : Nat
  maxPriorityFeePerGas : Option Nat := none
  maxFeePerGas : Option Nat := none
  gas : Option Nat := none
  calls : List Call := []
  accessList : List AccessListEntry := []
  nonceKey : Option Nat := none
  nonce : Option Nat := none
  validBefore : Option Nat := none
  validAfter : Option Nat := none
  feeToken : Option (List Nat) := none
  authorizationList : List Authorization := []
  signature : Option SignatureEnvelope := none
  feePayerSignature : FeePayerValue := .undef
deriving DecidableEq

/-- A normalized envelope (`type: 'aa'` implicit): `nonce` and `nonceKey`
carry their default `0`. -/
structure Tx where
  chainId : Nat
  maxPriorityFeePerGas : Option Nat := none
  maxFeePerGas : Option Nat := none
  gas : Option Nat := none
  calls : List Call := []
  accessList : List AccessListEntry := []
  nonceKey : Nat := 0
  nonce : Nat := 0
  validBefore : Option Nat := none
  validAfter : Option Nat := none
  feeToken : Option (List Nat) := none
  authorizationList : List Authorization := []
  signature : Option SignatureEnvelope := none
  feePayerSignature : FeePayerValue := .undef
deriving DecidableEq

/-- The typed validation and decode errors of the codec (spec §7). -/
inductive Err where
  | CallsEmpty
  | InvalidValidityWindow (validBefore validAfter : Nat)
  | InvalidAddress (address : List Nat)
  | FeeCapTooHigh (feeCap : Nat)
  | TipAboveFeeCap (tip feeCap : Nat)
  | InvalidChainId (chainId : Nat)
  | InvalidSerialized (serialized : List Nat) (missing : List String)
deriving DecidableEq

deriving instance DecidableEq for Except

/-- Address validation (20-byte value) as performed by the address layer. -/
def isValidAddress (a : List Nat) : Bool := a.length == 20 && a.all (· < 256)

/-- First malformed `to` address among the calls, if any. -/
def firstBadAddress : List Call → Option (List Nat)
  | [] => none
  | c :: cs =>
    match c.to with
    | some a => if isValidAddress a then firstBadAddress cs else some a
    | none => firstBadAddress cs

/-- The largest representable fee value, `2^256 - 1`. -/
def maxUint256 : Nat := 2 ^ 256 - 1

/-- Modelled from the spec (§4.2 step 6): the chain-id check. -/
def assertChain (d : Draft) : Except Err Unit :=
  if d.chainId < 1 then .error (.InvalidChainId d.chainId) else .ok ()

/-- Fee-bound checks applied to `(maxFeePerGas, maxPriorityFeePerGas)`:
fee cap first, then the priority-fee cap, then tip-above-cap. -/
def checkFeeCaps (assertRest : Except Err Unit) :
    Option Nat → Option Nat → Except Err Unit
  | some f, some p =>
    if maxUint256 < f then .error (.FeeCapTooHigh f)
    else if maxUint256 < p then .error (.FeeCapTooHigh p)
    else if f < p then .error (.TipAboveFeeCap p f)
    else assertRest
  | some f, none => if maxUint256 < f then .error (.FeeCapTooHigh f) else assertRest
  | none, some p => if maxUint256 < p then .error (.FeeCapTooHigh p) else assertRest
  | none, none => assertRest

/-- Modelled from the spec (§4.2 steps 4–5): the fee checks of `assert`. -/
def assertFees (d : Draft) : Except Err Unit :=
  checkFeeCaps (assertChain d) d.maxFeePerGas d.maxPriorityFeePerGas

/-- Propagate a malformed call address, else continue. -/
def checkAddresses (assertRest : Except Err Unit) :
    Option (List Nat) → Except Err Unit
  | some a => .error (.InvalidAddress a)
  | none => assertRest

/-- Modelled from the spec (§4.2 step 3): propagate the first malformed call
address unchanged, then fall through to the fee checks. -/
def assertAddresses (d : Draft) : Except Err Unit :=
  checkAddresses (assertFees d) (firstBadAddress d.calls)

/-- The validity-window check applied to `(validBefore, validAfter)`. -/
def checkWindow (assertRest : Except Err Unit) :
    Option Nat → Option Nat → Except Err Unit
  | some vb, some va =>
    if vb ≤ va then .error (.InvalidValidityWindow vb va) else assertRest
  | some _, none => assertRest
  | none, _ => assertRest

/-- Modelled from the spec (§4.2): `assert` throws the typed error of the
first violated invariant, in priority order — empty calls, validity window,
call addresses, fee bounds, chain id. -/
def assertDraft (d : Draft) : Except Err Unit :=
  if d.calls = [] then .error .CallsEmpty
  else checkWindow (assertAddresses d) d.validBefore d.validAfter

/-- Modelled from the spec (§4.2, §7): `validate` converts any `assert`
failure into `false`. -/
def validate (d : Draft) : Bool :=
  match assertDraft d with
  | .ok _ => true
  | .error _ => false

/-- Modelled from the spec (§4.2): `from` normalizes a draft into a canonical
envelope, applying the defaults `nonce = 0` and `nonceKey = 0`. -/
def fromDraft (d : Draft) : Tx :=
  { chainId := d.chainId
    maxPriorityFeePerGas := d.maxPriorityFeePerGas
    maxFeePerGas := d.maxFeePerGas
    gas := d.gas
    calls := d.calls
    accessList := d.accessList
    nonceKey := d.nonceKey.getD 0
    nonce := d.nonce.getD 0
    validBefore := d.validBefore
    validAfter := d.validAfter
    feeToken := d.feeToken
    authorizationList := d.authorizationList
    signature := d.signature
    feePayerSignature := d.feePayerSignature }

/-! ### Serialization (spec §4.3, §6)

Every numeric field is encoded as its minimal big-endian byte string (zero as
the empty string); absent optional fields encode as the empty string; list
fields encode as RLP lists.  Each wire slot is defined twice, as the bytes fed
to the RLP encoder and as the `Item` the RLP decoder returns for them. -/

/-- Wire slot of an integer field. -/
def natBytes (n : Nat) : List Nat := encStr (beBytes n)

/-- Item view of an integer field. -/
def natItem (n : Nat) : Item := .str (beBytes n)

/-- Wire slot of an optional integer field. -/
def optNatBytes : Option Nat → List Nat
  | none => encStr []
  | some n => encStr (beBytes n)

/-- Item view of an optional integer field. -/
def optNatItem : Option Nat → Item
  | none => .str []
  | some n => .str (beBytes n)

/-- Wire slot of an optional byte-string field. -/
def optStrBytes : Option (List Nat) → List Nat
  | none => encStr []
  | some a => encStr a

/-- Item view of an optional byte-string field. -/
def optStrItem : Option (List Nat) → Item
  | none => .str []
  | some a => .str a

/-- RLP payload of one call `[to, value, data]`. -/
def callPayload (c : Call) : List Nat :=
  optStrBytes c.to ++ (optNatBytes c.value ++ optStrBytes c.data)

/-- Wire bytes of one call. -/
def callBytes (c : Call) : List Nat := encList (callPayload c)

/-- Item view of one call. -/
def callItem (c : Call) : Item := .list [optStrItem c.to, optNatItem c.value, optStrItem c.data]

/-- RLP payload of the calls slot. -/
def callsPayload (cs : List Call) : List Nat := (cs.map callBytes).flatten

/-- Wire bytes of the calls slot. -/
def callsBytes (cs : List Call) : List Nat := encList (callsPayload cs)

/-- Item view of the calls slot. -/
def callsItem (cs : List Call) : Item := .list (cs.map callItem)

/-- RLP payload of a storage-key list. -/
def storageKeysPayload (ks : List (List Nat)) : List Nat := (ks.map encStr).flatten

/-- RLP payload of one access-list entry `[address, storageKeys]`. -/
def accessEntryPayload (e : AccessListEntry) : List Nat :=
  encStr e.address ++ encList (storageKeysPayload e.storageKeys)

/-- Wire bytes of one access-list entry. -/
def accessEntryBytes (e : AccessListEntry) : List Nat := encList (accessEntryPayload e)

/-- Item view of one access-list entry. -/
def accessEntryItem (e : AccessListEntry) : Item :=
  .list [.str e.address, .list (e.storageKeys.map Item.str)]

/-- RLP payload of the access-list slot. -/
def accessListPayload (es : List AccessListEntry) : List Nat :=
  (es.map accessEntryBytes).flatten

/-- Wire bytes of the access-list slot. -/
def accessListBytes (es : List AccessListEntry) : List Nat := encList (accessListPayload es)

/-- Item view of the access-list slot. -/
def accessListItem (es : List AccessListEntry) : Item := .list (es.map accessEntryItem)

/-- RLP payload of one authorization entry
`[chainId, address, nonce, yParity, r, s]`. -/
def authPayload (a : Authorization) : List Nat :=
  natBytes a.chainId ++ (encStr a.address ++ (natBytes a.nonce ++
    (natBytes a.yParity ++ (natBytes a.r ++ natBytes a.s))))

/-- Wire bytes of one authorization entry. -/
def authBytes (a : Authorization) : List Nat := encList (authPayload a)

/-- Item view of one authorization entry. -/
def authItem (a : Authorization) : Item :=
  .list [natItem a.chainId, .str a.address, natItem a.nonce,
    natItem a.yParity, natItem a.r, natItem a.s]

/-- RLP payload of the authorization-list slot. -/
def authListPayload (al : List Authorization) : List Nat := (al.map authBytes).flatten

/-- Wire bytes of the authorization-list slot. -/
def authListBytes (al : List Authorization) : List Nat := encList (authListPayload al)

/-- Item view of the authorization-list slot. -/
def authListItem (al : List Authorization) : Item := .list (al.map authItem)

/-- Wire bytes of the fee-payer slot for each `FeePayerValue`: empty string
when absent, the one-byte string `0x00` for an explicit `null` placeholder,
and the three-element list `[yParity, r, s]` for a signature tuple (order as
fixed by the test vectors). -/
def feePayerSlotBytes : FeePayerValue → List Nat
  | .undef => encStr []
  | .null => encStr [0]
  | .sig y r s => encList (natBytes y ++ (natBytes r ++ natBytes s))

/-- Item view of the fee-payer slot. -/
def feePayerSlotItem : FeePayerValue → Item
  | .undef => .str []
  | .null => .str [0]
  | .sig y r s => .list [natItem y, natItem r, natItem s]

/-- Fixed-width 32-byte big-endian encoding. -/
def pad32 (n : Nat) : List Nat := padBE 32 n

/-- Modelled from the spec (§4.1, §4.3) and the test vectors: the signature
envelope serializes into a single trailing byte-string blob — 65 bytes
`r{32} ‖ s{32} ‖ 27 + yParity` for secp256k1, and
`r{32} ‖ s{32} ‖ prehashFlag ‖ publicKey` (longer than 65 bytes) for P-256. -/
def sigBlob : SignatureEnvelope → List Nat
  | .secp256k1 r s y => pad32 r ++ (pad32 s ++ [27 + y])
  | .p256 r s pk ph => pad32 r ++ (pad32 s ++ ((if ph then 1 else 0) :: pk))

/-- Serialization format: the default wire form, or the fee-payer signing
form that binds the sender address in the fee-payer slot. -/
inductive SerializeFormat where
  | std
  | feePayer (sender : List Nat)

/-- Options accepted by `serialize`: a signature override, a fee-payer
override, the format, and the presign flag. -/
structure SerializeOptions where
  signature : Option SignatureEnvelope := none
  feePayerSignature : FeePayerValue := .undef
  format : SerializeFormat := .std
  presign : Bool := false

/-- The signature actually encoded: the override when given, else the
envelope's own. -/
def effSignature (tx : Tx) (opts : SerializeOptions) : Option SignatureEnvelope :=
  match opts.signature with
  | some sg => some sg
  | none => tx.signature

/-- The fee-payer value actually encoded: the override when given (including
an explicit `null`), else the envelope's own. -/
def effFeePayer (tx : Tx) (opts : SerializeOptions) : FeePayerValue :=
  match opts.feePayerSignature with
  | .undef => tx.feePayerSignature
  | .null => .null
  | .sig y r s => .sig y r s

/-- Wire bytes of the fee-payer slot for each format: the fee-payer format
writes the bound sender address, the standard format encodes the effective
fee-payer value. -/
def feePayerFormatBytes (tx : Tx) (opts : SerializeOptions) : SerializeFormat → List Nat
  | .feePayer sender => encStr sender
  | .std => feePayerSlotBytes (effFeePayer tx opts)

/-- Wire bytes of the fee-payer slot under the chosen options: presign forces
the empty string. -/
def feePayerWireBytes (tx : Tx) (opts : SerializeOptions) : List Nat :=
  if opts.presign then encStr [] else feePayerFormatBytes tx opts opts.format

/-- Item view of the fee-payer slot for each format. -/
def feePayerFormatItem (tx : Tx) (opts : SerializeOptions) : SerializeFormat → Item
  | .feePayer sender => .str sender
  | .std => feePayerSlotItem (effFeePayer tx opts)

/-- Item view of the fee-payer slot under the chosen options. -/
def feePayerWireItem (tx : Tx) (opts : SerializeOptions) : Item :=
  if opts.presign then .str [] else feePayerFormatItem tx opts opts.format

/-- Wire bytes of the trailing signature blob in the standard format. -/
def sigTrailerStdBytes : Option SignatureEnvelope → List Nat
  | some sg => encStr (sigBlob sg)
  | none => []

/-- Wire bytes of the trailing signature blob for each format: omitted under
the fee-payer format. -/
def sigTrailerFormatBytes (tx : Tx) (opts : SerializeOptions) : SerializeFormat → List Nat
  | .feePayer _ => []
  | .std => sigTrailerStdBytes (effSignature tx opts)

/-- Wire bytes of the trailing signature blob: omitted under presign and
under the fee-payer format, else present exactly when a signature is
attached. -/
def sigTrailerBytes (tx : Tx) (opts : SerializeOptions) : List Nat :=
  if opts.presign then [] else sigTrailerFormatBytes tx opts opts.format

/-- Item view of the trailing signature blob in the standard format. -/
def sigTrailerStdItems : Option SignatureEnvelope → List Item
  | some sg => [.str (sigBlob sg)]
  | none => []

/-- Item view of the trailing signature blob for each format. -/
def sigTrailerFormatItems (tx : Tx) (opts : SerializeOptions) : SerializeFormat → List Item
  | .feePayer _ => []
  | .std => sigTrailerStdItems (effSignature tx opts)

/-- Item view of the trailing signature blob. -/
def sigTrailerItems (tx : Tx) (opts : SerializeOptions) : List Item :=
  if opts.presign then [] else sigTrailerFormatItems tx opts opts.format

/-- The RLP payload of the envelope: the thirteen fixed slots in wire order
(spec §6), followed by the optional signature blob. -/
def txFieldBytes (tx : Tx) (opts : SerializeOptions) : List Nat :=
  natBytes tx.chainId ++
    (optNatBytes tx.maxPriorityFeePerGas ++
    (optNatBytes tx.maxFeePerGas ++
    (optNatBytes tx.gas ++
    (callsBytes tx.calls ++
    (accessListBytes tx.accessList ++
    (natBytes tx.nonceKey ++
    (natBytes tx.nonce ++
    (optNatBytes tx.validBefore ++
    (optNatBytes tx.validAfter ++
    (optStrBytes tx.feeToken ++
    (feePayerWireBytes tx opts ++
    (authListBytes tx.authorizationList ++
    sigTrailerBytes tx opts))))))))))))

/-- The item sequence corresponding to `txFieldBytes`. -/
def txFieldItems (tx : Tx) (opts : SerializeOptions) : List Item :=
  [natItem tx.chainId, optNatItem tx.maxPriorityFeePerGas,
    optNatItem tx.maxFeePerGas, optNatItem tx.gas, callsItem tx.calls,
    accessListItem tx.accessList, natItem tx.nonceKey, natItem tx.nonce,
    optNatItem tx.validBefore, optNatItem tx.validAfter,
    optStrItem tx.feeToken, feePayerWireItem tx opts,
    authListItem tx.authorizationList] ++ sigTrailerItems tx opts

/-- The type-discriminator byte: `0x76` for the standard Batched wire form,
`0x78` for the fee-payer signing form (test vector `format: 'feePayer'`). -/
def typeByte (opts : SerializeOptions) : Nat :=
  match opts.format with
  | .std => 0x76
  | .feePayer _ => 0x78

/-- Modelled from the spec (§4.3, §6): `serialize` emits the discriminator
byte followed by the RLP list of the fields. -/
def serialize (tx : Tx) (opts : SerializeOptions) : List Nat :=
  typeByte opts :: encList (txFieldBytes tx opts)

/-! ### Deserialization (spec §4.4)

`deserialize` strips the discriminator byte, RLP-decodes the list and
reconstructs the envelope positionally.  Modelled from the spec, with the
field-count discipline and error contents pinned by the test file: twelve
required fields (`chainId` … `feePayerSignatureOrSender`), an optional
authorization list, and at most one extra trailing field (the signature
blob). -/

/-- Parse a wire slot that must be a byte string. -/
def parseStr (bytes : List Nat) : Item → Except Err (List Nat)
  | .str bs => .ok bs
  | .list _ => .error (.InvalidSerialized bytes [])

/-- Parse an integer slot. -/
def parseNat (bytes : List Nat) (it : Item) : Except Err Nat :=
  (parseStr bytes it).map beToNat

/-- Parse an optional integer slot: the empty string means absent. -/
def parseOptNat (bytes : List Nat) : Item → Except Err (Option Nat)
  | .str [] => .ok none
  | .str (b :: bs) => .ok (some (beToNat (b :: bs)))
  | .list _ => .error (.InvalidSerialized bytes [])

/-- Parse an optional byte-string slot: the empty string means absent. -/
def parseOptStr (bytes : List Nat) : Item → Except Err (Option (List Nat))
  | .str [] => .ok none
  | .str (b :: bs) => .ok (some (b :: bs))
  | .list _ => .error (.InvalidSerialized bytes [])

/-- Parse one call slot `[to, value, data]`. -/
def parseCall (bytes : List Nat) : Item → Except Err Call
  | .list [t, v, dt] => do
    let toV ← parseOptStr bytes t
    let valueV ← parseOptNat bytes v
    let dataV ← parseOptStr bytes dt
    .ok { «to» := toV, value := valueV, data := dataV }
  | .str _ => .error (.InvalidSerialized bytes [])
  | .list [] => .error (.InvalidSerialized bytes [])
  | .list [_] => .error (.InvalidSerialized bytes [])
  | .list [_, _] => .error (.InvalidSerialized bytes [])
  | .list (_ :: _ :: _ :: _ :: _) => .error (.InvalidSerialized bytes [])

/-- Parse the calls slot; an empty decoded list raises `CallsEmpty` even for
otherwise well-formed bytes (spec §4.4 (e)). -/
def parseCalls (bytes : List Nat) : Item → Except Err (List Call)
  | .list [] => .error .CallsEmpty
  | .list (c :: cs) => (c :: cs).mapM (parseCall bytes)
  | .str _ => .error (.InvalidSerialized bytes [])

/-- Parse a storage-key list. -/
def parseStorageKeys (bytes : List Nat) : Item → Except Err (List (List Nat))
  | .list ks => ks.mapM (parseStr bytes)
  | .str _ => .error (.InvalidSerialized bytes [])

/-- Parse one access-list entry `[address, storageKeys]`. -/
def parseAccessEntry (bytes : List Nat) : Item → Except Err AccessListEntry
  | .list [a, ks] => do
    let address ← parseStr bytes a
    let keys ← parseStorageKeys bytes ks
    .ok { address := address, storageKeys := keys }
  | .str _ => .error (.InvalidSerialized bytes [])
  | .list [] => .error (.InvalidSerialized bytes [])
  | .list [_] => .error (.InvalidSerialized bytes [])
  | .list (_ :: _ :: _ :: _) => .error (.InvalidSerialized bytes [])

/-- Parse the access-list slot (the empty string is accepted as empty). -/
def parseAccessList (bytes : List Nat) : Item → Except Err (List AccessListEntry)
  | .str [] => .ok []
  | .str (_ :: _) => .error (.InvalidSerialized bytes [])
  | .list es => es.mapM (parseAccessEntry bytes)

/-- Parse one authorization entry `[chainId, address, nonce, yParity, r, s]`. -/
def parseAuth (bytes : List Nat) : Item → Except Err Authorization
  | .list [c1, a, n, y, r, s] => do
    let chainId ← parseNat bytes c1
    let address ← parseStr bytes a
    let nonceV ← parseNat bytes n
    let yParity ← parseNat bytes y
    let rV ← parseNat bytes r
    let sV ← parseNat bytes s
    .ok { chainId := chainId, address := address, nonce := nonceV,
          yParity := yParity, r := rV, s := sV }
  | .str _ => .error (.InvalidSerialized bytes [])
  | .list [] => .error (.InvalidSerialized bytes [])
  | .list [_] => .error (.InvalidSerialized bytes [])
  | .list [_, _] => .error (.InvalidSerialized bytes [])
  | .list [_, _, _] => .error (.InvalidSerialized bytes [])
  | .list [_, _, _, _] => .error (.InvalidSerialized bytes [])
  | .list [_, _, _, _, _] => .error (.InvalidSerialized bytes [])
  | .list (_ :: _ :: _ :: _ :: _ :: _ :: _ :: _) => .error (.InvalidSerialized bytes [])

/-- Parse the authorization-list slot. -/
def parseAuthList (bytes : List Nat) : Item → Except Err (List Authorization)
  | .str [] => .ok []
  | .str (_ :: _) => .error (.InvalidSerialized bytes [])
  | .list es => es.mapM (parseAuth bytes)

/-- Parse the fee-payer slot by its RLP shape alone (spec §9): empty string
means absent, any nonempty string (the `0x00` placeholder or a bare 20-byte
address, which is discarded) decodes to `null`, and a three-element list
reconstructs the `[yParity, r, s]` tuple. -/
def parseFeePayer (bytes : List Nat) : Item → Except Err FeePayerValue
  | .str [] => .ok .undef
  | .str (_ :: _) => .ok .null
  | .list [y, r, s] => do
    let yParity ← parseNat bytes y
    let rV ← parseNat bytes r
    let sV ← parseNat bytes s
    .ok (.sig yParity rV sV)
  | .list [] => .error (.InvalidSerialized bytes [])
  | .list [_] => .error (.InvalidSerialized bytes [])
  | .list [_, _] => .error (.InvalidSerialized bytes [])
  | .list (_ :: _ :: _ :: _ :: _) => .error (.InvalidSerialized bytes [])

/-- Parse the trailing signature blob: a 65-byte string is a secp256k1
signature, a longer string is a P-256 signature envelope. -/
def parseSignature (bytes : List Nat) (it : Item) : Except Err SignatureEnvelope := do
  let bs ← parseStr bytes it
  if bs.length = 65 then
    .ok (.secp256k1 (beToNat (bs.take 32)) (beToNat ((bs.drop 32).take 32))
      ((bs.drop 64).headD 0 - 27))
  else if 65 < bs.length then
    .ok (.p256 (beToNat (bs.take 32)) (beToNat ((bs.drop 32).take 32))
      (bs.drop 65) ((bs.drop 64).headD 0 == 1))
  else .error (.InvalidSerialized bytes [])

/-- The twelve required field names, as listed by the decode error of the
test file. -/
def requiredFieldNames : List String :=
  ["chainId", "maxPriorityFeePerGas", "maxFeePerGas", "gas", "calls",
   "accessList", "nonceKey", "nonce", "validBefore", "validAfter",
   "feeToken", "feePayerSignatureOrSender"]

/-- The trailing authorization-list slot (absent means empty). -/
def parseAuthSlot (bytes : List Nat) : List Item → Except Err (List Authorization)
  | [] => .ok []
  | a :: _ => parseAuthList bytes a

/-- The trailing signature slot (present only as a fourteenth field). -/
def parseSigSlot (bytes : List Nat) : List Item → Except Err (Option SignatureEnvelope)
  | [] => .ok none
  | [_] => .ok none
  | _ :: sg :: _ => (parseSignature bytes sg).map some

/-- Positional reconstruction of the envelope from the decoded RLP item
list.  Fewer than twelve items raises `InvalidSerialized` naming every
missing required field; more than fourteen raises `InvalidSerialized` with
the offending bytes; exactly thirteen items carry the authorization list,
exactly fourteen additionally carry the signature blob. -/
def parseItems (bytes : List Nat) : List Item → Except Err Tx
  | cId :: prio :: fee :: gasIt :: callsIt :: aL :: nK :: nc :: vB :: vA ::
      fT :: fps :: rest =>
    if 2 < rest.length then .error (.InvalidSerialized bytes [])
    else do
      let chainId ← parseNat bytes cId
      let maxPriorityFeePerGas ← parseOptNat bytes prio
      let maxFeePerGas ← parseOptNat bytes fee
      let gasV ← parseOptNat bytes gasIt
      let callsV ← parseCalls bytes callsIt
      let accessList ← parseAccessList bytes aL
      let nonceKey ← parseNat bytes nK
      let nonceV ← parseNat bytes nc
      let validBefore ← parseOptNat bytes vB
      let validAfter ← parseOptNat bytes vA
      let feeToken ← parseOptStr bytes fT
      let feePayerSignature ← parseFeePayer bytes fps
      let authorizationList ← parseAuthSlot bytes rest
      let signature ← parseSigSlot bytes rest
      .ok { chainId := chainId, maxPriorityFeePerGas := maxPriorityFeePerGas,
            maxFeePerGas := maxFeePerGas, gas := gasV, calls := callsV,
            accessList := accessList, nonceKey := nonceKey, nonce := nonceV,
            validBefore := validBefore, validAfter := validAfter,
            feeToken := feeToken, authorizationList := authorizationList,
            signature := signature, feePayerSignature := feePayerSignature }
  | items => .error (.InvalidSerialized bytes (requiredFieldNames.drop items.length))

/-- Top-level RLP decode of a complete input. -/
def rlpDecodeTop (bytes : List Nat) : Option Item :=
  match decodeItemF (2 * bytes.length) bytes with
  | some (it, []) => some it
  | _ => none

/-- Modelled from the spec (§4.4): `deserialize` strips the `0x76`
discriminator, RLP-decodes the remainder into a list and reconstructs the
envelope positionally. -/
def deserialize (bytes : List Nat) : Except Err Tx :=
  match bytes with
  | 0x76 :: rest =>
    match rlpDecodeTop rest with
    | some (.list items) => parseItems bytes items
    | _ => .error (.InvalidSerialized bytes [])
  | _ => .error (.InvalidSerialized bytes [])

/-! ### Hashing payloads (spec §4.5–§4.7)

The keccak-256 primitive is the trusted external collaborator; the payload
derivations are parameterized by it. -/

/-- The presign serialization: signature and fee-payer fields omitted. -/
def getSignPayloadBytes (tx : Tx) : List Nat := serialize tx { presign := true }

/-- `getSignPayload(envelope) = keccak256(serialize(envelope, presign))`. -/
def getSignPayload (keccak256 : List Nat → List Nat) (tx : Tx) : List Nat :=
  keccak256 (getSignPayloadBytes tx)

/-- The fee-payer signing serialization: type byte `0x78`, the bound sender
address in the fee-payer slot, no trailing signature. -/
def getFeePayerSignPayloadBytes (tx : Tx) (sender : List Nat) : List Nat :=
  serialize tx { format := .feePayer sender }

/-- `getFeePayerSignPayload(envelope, {sender})`: the distinct hash domain of
the fee payer, binding the resolved sender and (through the serialized
fields) the `feeToken`. -/
def getFeePayerSignPayload (keccak256 : List Nat → List Nat) (tx : Tx)
    (sender : List Nat) : List Nat :=
  keccak256 (getFeePayerSignPayloadBytes tx sender)

/-- `hash(envelope, options?)`: the presign payload when requested, else the
hash of the fully signed wire form. -/
def hashTx (keccak256 : List Nat → List Nat) (tx : Tx) (presign : Bool) : List Nat :=
  if presign then getSignPayload keccak256 tx
  else keccak256 (serialize tx {})

/-! ### Wire vectors

The serializer is pinned byte-for-byte against the inline snapshots of the
repository's test file. -/

/-- Test address `0x70997970c51812dc3a010c7d01b50e0d17dc79c8`. -/
def addr7099 : List Nat :=
  [0x70, 0x99, 0x79, 0x70, 0xc5, 0x18, 0x12, 0xdc, 0x3a, 0x01,
   0x0c, 0x7d, 0x01, 0xb5, 0x0e, 0x0d, 0x17, 0xdc, 0x79, 0xc8]

/-- Test sender `0xf39fd6e51aad88f6f4ce6ab8827279cfffb92266`. -/
def senderF39f : List Nat :=
  [0xf3, 0x9f, 0xd6, 0xe5, 0x1a, 0xad, 0x88, 0xf6, 0xf4, 0xce,
   0x6a, 0xb8, 0x82, 0x72, 0x79, 0xcf, 0xff, 0xb9, 0x22, 0x66]

/-- The minimal draft of the test file. -/
def draftMinimal : Draft := { chainId := 1, calls := [{}], nonce := some 0 }

/-- The default draft of the test file's serialize block. -/
def draftDefault : Draft :=
  { chainId := 1
    calls := [{ «to» := some addr7099 }]
    nonce := some 785
    maxFeePerGas := some 2000000000
    maxPriorityFeePerGas := some 2000000000 }

/-- The single-call draft used by the fee-payer serialize vectors. -/
def draft7099 : Draft := { chainId := 1, calls := [{ «to» := some addr7099 }], nonce := some 0 }

/-- Snapshot `serialize` / `minimal`. -/
theorem wire_vector_minimal :
    serialize (fromDraft draftMinimal) {} =
      [0x76, 0xd1, 0x01, 0x80, 0x80, 0x80, 0xc4, 0xc3, 0x80, 0x80, 0x80, 0xc0,
       0x80, 0x80, 0x80, 0x80, 0x80, 0x80, 0xc0] := by
  decide

/-- Snapshot `serialize` / `default` (nonce 785, fees 2 gwei). -/
theorem wire_vector_default :
    serialize (fromDraft draftDefault) {} =
      [0x76, 0xef, 0x01, 0x84, 0x77, 0x35, 0x94, 0x00, 0x84, 0x77, 0x35, 0x94,
       0x00, 0x80, 0xd8, 0xd7, 0x94, 0x70, 0x99, 0x79, 0x70, 0xc5, 0x18, 0x12,
       0xdc, 0x3a, 0x01, 0x0c, 0x7d, 0x01, 0xb5, 0x0e, 0x0d, 0x17, 0xdc, 0x79,
       0xc8, 0x80, 0x80, 0xc0, 0x80, 0x82, 0x03, 0x11, 0x80, 0x80, 0x80, 0x80,
       0xc0] := by
  decide

/-- Snapshot `serialize` / `with feePayerSignature` (tuple `[yParity, r, s]`
encodes as `c3 80 01 02`). -/
theorem wire_vector_feePayer_tuple :
    serialize (fromDraft draft7099) { feePayerSignature := .sig 0 1 2 } =
      [0x76, 0xe8, 0x01, 0x80, 0x80, 0x80, 0xd8, 0xd7, 0x94, 0x70, 0x99, 0x79,
       0x70, 0xc5, 0x18, 0x12, 0xdc, 0x3a, 0x01, 0x0c, 0x7d, 0x01, 0xb5, 0x0e,
       0x0d, 0x17, 0xdc, 0x79, 0xc8, 0x80, 0x80, 0xc0, 0x80, 0x80, 0x80, 0x80,
       0x80, 0xc3, 0x80, 0x01, 0x02, 0xc0] := by
  decide

/-- Snapshot `serialize` / `with feePayerSignature (null)` (slot `0x00`). -/
theorem wire_vector_feePayer_null :
    serialize (fromDraft draft7099) { feePayerSignature := .null } =
      [0x76, 0xe5, 0x01, 0x80, 0x80, 0x80, 0xd8, 0xd7, 0x94, 0x70, 0x99, 0x79,
       0x70, 0xc5, 0x18, 0x12, 0xdc, 0x3a, 0x01, 0x0c, 0x7d, 0x01, 0xb5, 0x0e,
       0x0d, 0x17, 0xdc, 0x79, 0xc8, 0x80, 0x80, 0xc0, 0x80, 0x80, 0x80, 0x80,
       0x80, 0x00, 0xc0] := by
  decide

/-- Snapshot `serialize` / `format: 'feePayer'` (type byte `0x78`, sender in
the fee-payer slot). -/
theorem wire_vector_feePayer_format :
    serialize (fromDraft draft7099) { format := .feePayer senderF39f } =
      [0x78, 0xf8, 0x39, 0x01, 0x80, 0x80, 0x80, 0xd8, 0xd7, 0x94, 0x70, 0x99,
       0x79, 0x70, 0xc5, 0x18, 0x12, 0xdc, 0x3a, 0x01, 0x0c, 0x7d, 0x01, 0xb5,
       0x0e, 0x0d, 0x17, 0xdc, 0x79, 0xc8, 0x80, 0x80, 0xc0, 0x80, 0x80, 0x80,
       0x80, 0x80, 0x94, 0xf3, 0x9f, 0xd6, 0xe5, 0x1a, 0xad, 0x88, 0xf6, 0xf4,
       0xce, 0x6a, 0xb8, 0x82, 0x72, 0x79, 0xcf, 0xff, 0xb9, 0x22, 0x66, 0xc0] := by
  decide

/-- Round trip of the minimal snapshot through the byte-level decoder. -/
theorem wire_vector_minimal_roundtrip :
    deserialize (serialize (fromDraft draftMinimal) {}) = .ok (fromDraft draftMinimal) := by
  decide

/-! ## Validation claims -/

/-- The validity window is not violated: whenever both bounds are present,
`validBefore` exceeds `validAfter`. -/
def WindowOK (d : Draft) : Prop :=
  ∀ vb va, d.validBefore = some vb → d.validAfter = some va → va < vb

/-- The chain-id check never produces a validity-window error. -/
theorem assertChain_ne_window (d : Draft) (vb va : Nat) :
    assertChain d ≠ .error (.InvalidValidityWindow vb va) := by
  rw [assertChain]
  split_ifs <;> simp

/-- The later stages of `assert` never produce a validity-window error. -/
theorem assertAddresses_ne_window (d : Draft) (vb va : Nat) :
    assertAddresses d ≠ .error (.InvalidValidityWindow vb va) := by
  rw [assertAddresses]
  rcases firstBadAddress d.calls with _ | a <;> simp only [checkAddresses]
  · rw [assertFees]
    rcases d.maxFeePerGas with _ | f <;> rcases d.maxPriorityFeePerGas with _ | p <;>
      simp only [checkFeeCaps]
    · exact assertChain_ne_window d vb va
    · split_ifs <;> simp [assertChain_ne_window d vb va]
    · split_ifs <;> simp [assertChain_ne_window d vb va]
    · split_ifs <;> simp [assertChain_ne_window d vb va]
  · simp

/-- C6: with a nonempty calls list (so that the window check is reached),
`assert` fails with `InvalidValidityWindow` exactly when both bounds are
present and `validBefore ≤ validAfter` (equality included), the error carrying
both literal values; it passes this check whenever `validBefore > validAfter`
or either bound is absent. -/
theorem assert_validity_window (d : Draft) (hc : d.calls ≠ []) :
    ((∃ vb va, assertDraft d = .error (.InvalidValidityWindow vb va)) ↔
      ∃ vb va, d.validBefore = some vb ∧ d.validAfter = some va ∧ vb ≤ va) ∧
    (∀ vb va, assertDraft d = .error (.InvalidValidityWindow vb va) →
      d.validBefore = some vb ∧ d.validAfter = some va ∧ vb ≤ va) := by
  rw [assertDraft, if_neg hc]
  rcases hvb : d.validBefore with _ | vb <;> rcases hva : d.validAfter with _ | va <;>
    simp only [checkWindow]
  · exact ⟨⟨fun ⟨vb, va, h⟩ => absurd h (assertAddresses_ne_window d vb va),
      fun ⟨vb, va, h, _, _⟩ => by simp [hvb] at h⟩,
      fun vb va h => absurd h (assertAddresses_ne_window d vb va)⟩
  · exact ⟨⟨fun ⟨vb, va, h⟩ => absurd h (assertAddresses_ne_window d vb va),
      fun ⟨vb, va, h, _, _⟩ => by simp [hvb] at h⟩,
      fun vb va h => absurd h (assertAddresses_ne_window d vb va)⟩
  · exact ⟨⟨fun ⟨vb, va, h⟩ => absurd h (assertAddresses_ne_window d vb va),
      fun ⟨vb', va', _, h, _⟩ => by simp [hva] at h⟩,
      fun vb va h => absurd h (assertAddresses_ne_window d vb va)⟩
  · by_cases hle : vb ≤ va
    · rw [if_pos hle]
      refine ⟨⟨fun _ => ⟨vb, va, rfl, rfl, hle⟩, fun _ => ⟨vb, va, rfl⟩⟩, ?_⟩
      intro vb' va' h
      injection h with h
      injection h with h1 h2
      exact ⟨by rw [h1], by rw [h2], by omega⟩
    · rw [if_neg hle]
      refine ⟨⟨fun ⟨vb', va', h⟩ => absurd h (assertAddresses_ne_window d vb' va'), ?_⟩,
        fun vb' va' h => absurd h (assertAddresses_ne_window d vb' va')⟩
      rintro ⟨vb', va', h1, h2, h3⟩
      injection h1 with h1
      injection h2 with h2
      omega

/-- Concrete draft with window (100, 200). -/
def draftWin12 : Draft := { chainId := 1, calls := [{}], validBefore := some 100, validAfter := some 200 }

/-- Concrete draft with window (100, 100). -/
def draftWin11 : Draft := { chainId := 1, calls := [{}], validBefore := some 100, validAfter := some 100 }

/-- Concrete draft with window (200, 100). -/
def draftWin21 : Draft := { chainId := 1, calls := [{}], validBefore := some 200, validAfter := some 100 }

/-- C6 witness: the window check at (100, 200), (100, 100) and (200, 100)
around a concrete draft. -/
theorem assert_validity_window_witness :
    (assertDraft draftWin12 = .error (.InvalidValidityWindow 100 200)) ∧
    (∃ vb va, assertDraft draftWin11 = .error (.InvalidValidityWindow vb va)) ∧
    ¬(∃ vb va, assertDraft draftWin21 = .error (.InvalidValidityWindow vb va)) := by
  refine ⟨?_, ?_, ?_⟩
  · obtain ⟨vb, va, hh⟩ := (assert_validity_window draftWin12 (by simp [draftWin12])).1.mpr
      ⟨100, 200, rfl, rfl, by omega⟩
    obtain ⟨h3, h4, _⟩ := (assert_validity_window draftWin12 (by simp [draftWin12])).2 vb va hh
    injection h3 with h3
    injection h4 with h4
    rw [h3, h4]
    exact hh
  · exact (assert_validity_window draftWin11 (by simp [draftWin11])).1.mpr
      ⟨100, 100, rfl, rfl, by omega⟩
  · intro h
    obtain ⟨vb, va, h1, h2, h3⟩ := (assert_validity_window draftWin21 (by simp [draftWin21])).1.mp h
    injection h1 with h1
    injection h2 with h2
    omega

/-- C7: fee and chain-id bound checks, each reached when the earlier checks
pass, and `validate` converting every `assert` failure into `false`. -/
theorem assert_scalar_bounds :
    (∀ d f, d.calls ≠ [] → WindowOK d → firstBadAddress d.calls = none →
      d.maxFeePerGas = some f → maxUint256 < f →
      assertDraft d = .error (.FeeCapTooHigh f)) ∧
    (∀ d p f, d.calls ≠ [] → WindowOK d → firstBadAddress d.calls = none →
      d.maxPriorityFeePerGas = some p → d.maxFeePerGas = some f →
      f ≤ maxUint256 → p ≤ maxUint256 → f < p →
      assertDraft d = .error (.TipAboveFeeCap p f)) ∧
    (∀ d, d.calls ≠ [] → WindowOK d → firstBadAddress d.calls = none →
      (∀ f, d.maxFeePerGas = some f → f ≤ maxUint256) →
      (∀ p, d.maxPriorityFeePerGas = some p → p ≤ maxUint256) →
      (∀ p f, d.maxPriorityFeePerGas = some p → d.maxFeePerGas = some f → p ≤ f) →
      d.chainId = 0 → assertDraft d = .error (.InvalidChainId 0)) ∧
    (∀ d e, assertDraft d = .error e → validate d = false) := by
  have hwin : ∀ d : Draft, d.calls ≠ [] → WindowOK d →
      assertDraft d = assertAddresses d := by
    intro d hc hw
    rw [assertDraft, if_neg hc]
    rcases hvb : d.validBefore with _ | vb <;> rcases hva : d.validAfter with _ | va <;>
      simp only [checkWindow]
    have := hw vb va hvb hva
    rw [if_neg (by omega)]
  refine ⟨?_, ?_, ?_, ?_⟩
  · intro d f hc hw haddr hf hbig
    rw [hwin d hc hw, assertAddresses, haddr]
    simp only [checkAddresses]
    rw [assertFees, hf]
    rcases d.maxPriorityFeePerGas with _ | p <;> simp only [checkFeeCaps] <;>
      rw [if_pos hbig]
  · intro d p f hc hw haddr hp hf hfle hple hlt
    rw [hwin d hc hw, assertAddresses, haddr]
    simp only [checkAddresses]
    rw [assertFees, hf, hp]
    simp only [checkFeeCaps]
    rw [if_neg (by omega), if_neg (by omega), if_pos hlt]
  · intro d hc hw haddr hfle hple htip hchain
    rw [hwin d hc hw, assertAddresses, haddr]
    simp only [checkAddresses]
    rw [assertFees]
    rcases hf : d.maxFeePerGas with _ | f <;> rcases hp : d.maxPriorityFeePerGas with _ | p <;>
      simp only [checkFeeCaps]
    · rw [assertChain, hchain, if_pos (by omega)]
    · rw [if_neg (by have := hple p hp; omega), assertChain, hchain, if_pos (by omega)]
    · rw [if_neg (by have := hfle f hf; omega), assertChain, hchain, if_pos (by omega)]
    · rw [if_neg (by have := hfle f hf; omega), if_neg (by have := hple p hp; omega),
        if_neg (by have := htip p f hp hf; omega), assertChain, hchain, if_pos (by omega)]
  · intro d e h
    rw [validate, h]

/-- Concrete draft with an oversized fee cap. -/
def draftFeeCap : Draft := { chainId := 1, calls := [{}], maxFeePerGas := some (2 ^ 256) }

/-- Concrete draft with the tip above the fee cap. -/
def draftTip : Draft := { chainId := 1, calls := [{}], maxFeePerGas := some 10, maxPriorityFeePerGas := some 20 }

/-- Concrete draft with chain id zero. -/
def draftChain0 : Draft := { chainId := 0, calls := [{}] }

/-- C7 witness: `maxFeePerGas = 2^256` trips `FeeCapTooHigh`, a tip above the
cap trips `TipAboveFeeCap`, `chainId = 0` trips `InvalidChainId`, and
`validate` returns `false` on the last. -/
theorem assert_scalar_bounds_witness :
    assertDraft draftFeeCap = .error (.FeeCapTooHigh (2 ^ 256)) ∧
    assertDraft draftTip = .error (.TipAboveFeeCap 20 10) ∧
    assertDraft draftChain0 = .error (.InvalidChainId 0) ∧
    validate draftChain0 = false := by
  refine ⟨?_, ?_, ?_, ?_⟩
  · exact assert_scalar_bounds.1 draftFeeCap (2 ^ 256) (by simp [draftFeeCap])
      (by intro vb va h; simp [draftFeeCap] at h) (by rfl) rfl (by norm_num [maxUint256])
  · exact assert_scalar_bounds.2.1 draftTip 20 10 (by simp [draftTip])
      (by intro vb va h; simp [draftTip] at h) (by rfl) rfl rfl
      (by norm_num [maxUint256]) (by norm_num [maxUint256]) (by norm_num)
  · exact assert_scalar_bounds.2.2.1 draftChain0 (by simp [draftChain0])
      (by intro vb va h; simp [draftChain0] at h) (by rfl)
      (by intro f h; simp [draftChain0] at h) (by intro p h; simp [draftChain0] at h)
      (by intro p f h; simp [draftChain0] at h) rfl
  · exact assert_scalar_bounds.2.2.2 draftChain0 (.InvalidChainId 0)
      (assert_scalar_bounds.2.2.1 draftChain0 (by simp [draftChain0])
        (by intro vb va h; simp [draftChain0] at h) (by rfl)
        (by intro f h; simp [draftChain0] at h) (by intro p h; simp [draftChain0] at h)
        (by intro p f h; simp [draftChain0] at h) rfl)

/-! ## Well-formedness and canonicity

`txWf` captures the size side-conditions under which the RLP layer is
faithful (RLP's own `< 2^64` length framing, 256-bit numeric fields, a
non-empty P-256 public key); `txCanon` excludes the degenerate explicit
values (`some 0`, empty byte strings) whose wire slot coincides with the
absent slot. -/

/-- A numeric field fits 256 bits. -/
def natWf (n : Nat) : Bool := n < 2 ^ 256

/-- An optional numeric field fits 256 bits when present. -/
def optNatWf : Option Nat → Bool
  | none => true
  | some n => natWf n

/-- A byte-string field fits RLP's length framing. -/
def bytesWf (bs : List Nat) : Bool := bs.length < 2 ^ 64

/-- An optional byte-string field fits RLP's length framing when present. -/
def optBytesWf : Option (List Nat) → Bool
  | none => true
  | some a => bytesWf a

/-- Size conditions of one call. -/
def callWf (c : Call) : Bool :=
  optBytesWf c.to && optNatWf c.value && optBytesWf c.data && bytesWf (callPayload c)

/-- Size conditions of one access-list entry. -/
def accessEntryWf (e : AccessListEntry) : Bool :=
  bytesWf e.address && e.storageKeys.all bytesWf &&
    bytesWf (storageKeysPayload e.storageKeys) && bytesWf (accessEntryPayload e)

/-- Size conditions of one authorization entry. -/
def authWf (a : Authorization) : Bool :=
  natWf a.chainId && bytesWf a.address && natWf a.nonce && natWf a.yParity &&
    natWf a.r && natWf a.s && bytesWf (authPayload a)

/-- Size conditions of an attached signature envelope. -/
def sigEnvWf : Option SignatureEnvelope → Bool
  | none => true
  | some (.secp256k1 r s y) => natWf r && natWf s && natWf y
  | some (.p256 r s pk ph) =>
      natWf r && natWf s && !pk.isEmpty && bytesWf (sigBlob (.p256 r s pk ph))

/-- Size conditions of a fee-payer value. -/
def feePayerWf : FeePayerValue → Bool
  | .undef => true
  | .null => true
  | .sig y r s => natWf y && natWf r && natWf s &&
      bytesWf (natBytes y ++ (natBytes r ++ natBytes s))

/-- Size conditions of the fee-payer wire slot for each format. -/
def feePayerFormatWf (tx : Tx) (opts : SerializeOptions) : SerializeFormat → Bool
  | .feePayer sender => bytesWf sender
  | .std => feePayerWf (effFeePayer tx opts)

/-- Size conditions of the fee-payer wire slot under the chosen options. -/
def feePayerWireWf (tx : Tx) (opts : SerializeOptions) : Bool :=
  if opts.presign then true else feePayerFormatWf tx opts opts.format

/-- Size conditions of the trailing signature blob for each format. -/
def sigTrailerFormatWf (tx : Tx) (opts : SerializeOptions) : SerializeFormat → Bool
  | .feePayer _ => true
  | .std => sigEnvWf (effSignature tx opts)

/-- Size conditions of the trailing signature blob under the chosen options. -/
def sigTrailerWf (tx : Tx) (opts : SerializeOptions) : Bool :=
  if opts.presign then true else sigTrailerFormatWf tx opts opts.format

/-- All size conditions of an envelope under the chosen options. -/
def txWf (tx : Tx) (opts : SerializeOptions) : Bool :=
  natWf tx.chainId && optNatWf tx.maxPriorityFeePerGas && optNatWf tx.maxFeePerGas &&
    optNatWf tx.gas && tx.calls.all callWf && bytesWf (callsPayload tx.calls) &&
    tx.accessList.all accessEntryWf && bytesWf (accessListPayload tx.accessList) &&
    natWf tx.nonceKey && natWf tx.nonce && optNatWf tx.validBefore &&
    optNatWf tx.validAfter && optBytesWf tx.feeToken && feePayerWireWf tx opts &&
    tx.authorizationList.all authWf && bytesWf (authListPayload tx.authorizationList) &&
    sigTrailerWf tx opts && bytesWf (txFieldBytes tx opts)

/-- An optional numeric field is not an explicit zero. -/
def optNatCanon : Option Nat → Bool
  | none => true
  | some n => n != 0

/-- An optional byte-string field is not an explicit empty string. -/
def optBytesCanon : Option (List Nat) → Bool
  | none => true
  | some a => !a.isEmpty

/-- Canonicity of one call. -/
def callCanon (c : Call) : Bool :=
  optBytesCanon c.to && optNatCanon c.value && optBytesCanon c.data

/-- Canonicity of an envelope: no present optional field carries the
default value that the wire cannot distinguish from absence. -/
def txCanon (tx : Tx) : Bool :=
  optNatCanon tx.maxPriorityFeePerGas && optNatCanon tx.maxFeePerGas &&
    optNatCanon tx.gas && tx.calls.all callCanon && optNatCanon tx.validBefore &&
    optNatCanon tx.validAfter && optBytesCanon tx.feeToken

/-! ## Per-slot decode lemmas -/

theorem natBytes_ne_nil (n : Nat) : natBytes n ≠ [] := encStr_ne_nil _

theorem optNatBytes_ne_nil (v : Option Nat) : optNatBytes v ≠ [] := by
  cases v <;> simp only [optNatBytes] <;> exact encStr_ne_nil _

theorem optStrBytes_ne_nil (v : Option (List Nat)) : optStrBytes v ≠ [] := by
  cases v <;> simp only [optStrBytes] <;> exact encStr_ne_nil _

theorem feePayerSlotBytes_ne_nil (v : FeePayerValue) : feePayerSlotBytes v ≠ [] := by
  cases v <;> simp only [feePayerSlotBytes]
  · exact encStr_ne_nil _
  · exact encStr_ne_nil _
  · exact encList_ne_nil _

theorem feePayerWireBytes_ne_nil (tx : Tx) (opts : SerializeOptions) :
    feePayerWireBytes tx opts ≠ [] := by
  rw [feePayerWireBytes]
  by_cases hpre : opts.presign
  · rw [if_pos hpre]
    exact encStr_ne_nil _
  · rw [if_neg hpre]
    cases opts.format with
    | feePayer sender => exact encStr_ne_nil _
    | std => exact feePayerSlotBytes_ne_nil _

theorem decodesItem_nat (n : Nat) (h : natWf n = true) :
    DecodesItem (natBytes n) (natItem n) := by
  apply decodesItem_encStr
  have h2 : n < 256 ^ 32 := by
    rw [natWf] at h
    simp at h
    calc n < 2 ^ 256 := h
    _ = 256 ^ 32 := by norm_num
  have := beBytes_length_le n 32 h2
  omega

theorem decodesItem_optNat (v : Option Nat) (h : optNatWf v = true) :
    DecodesItem (optNatBytes v) (optNatItem v) := by
  cases v with
  | none => exact decodesItem_encStr [] (by norm_num)
  | some n => exact decodesItem_nat n h

theorem decodesItem_optStr (v : Option (List Nat)) (h : optBytesWf v = true) :
    DecodesItem (optStrBytes v) (optStrItem v) := by
  cases v with
  | none => exact decodesItem_encStr [] (by norm_num)
  | some a =>
    apply decodesItem_encStr
    rw [optBytesWf, bytesWf] at h
    simpa using h

theorem decodesItem_call (c : Call) (h : callWf c = true) :
    DecodesItem (callBytes c) (callItem c) := by
  rw [callWf] at h
  simp only [Bool.and_eq_true] at h
  obtain ⟨⟨⟨hto, hv⟩, hd⟩, hp⟩ := h
  apply decodesItem_encList
  · simp only [callPayload, callItem]
    refine decodesList_cons _ _ _ _ (optStrBytes_ne_nil _)
      (decodesItem_optStr c.to hto) ?_
    refine decodesList_cons _ _ _ _ (optNatBytes_ne_nil _)
      (decodesItem_optNat c.value hv) ?_
    exact decodesList_single _ _ (optStrBytes_ne_nil _) (decodesItem_optStr c.data hd)
  · rw [bytesWf] at hp
    simpa using hp

theorem decodesList_calls (cs : List Call) (h : ∀ c ∈ cs, callWf c = true) :
    DecodesList (callsPayload cs) (cs.map callItem) := by
  induction cs with
  | nil => exact decodesList_nil
  | cons c cs ih =>
    rw [callsPayload, List.map_cons, List.flatten_cons, List.map_cons]
    exact decodesList_cons _ _ _ _ (encList_ne_nil _)
      (decodesItem_call c (h c (by simp)))
      (ih fun c' hc' => h c' (by simp [hc']))

theorem decodesItem_calls (cs : List Call) (h : ∀ c ∈ cs, callWf c = true)
    (hp : bytesWf (callsPayload cs) = true) :
    DecodesItem (callsBytes cs) (callsItem cs) := by
  rw [callsBytes, callsItem]
  apply decodesItem_encList _ _ (decodesList_calls cs h)
  rw [bytesWf] at hp
  simpa using hp

theorem decodesList_storageKeys (ks : List (List Nat))
    (h : ∀ k ∈ ks, bytesWf k = true) :
    DecodesList (storageKeysPayload ks) (ks.map Item.str) := by
  induction ks with
  | nil => exact decodesList_nil
  | cons k ks ih =>
    rw [storageKeysPayload, List.map_cons, List.flatten_cons, List.map_cons]
    refine decodesList_cons _ _ _ _ (encStr_ne_nil _) ?_
      (ih fun k' hk' => h k' (by simp [hk']))
    apply decodesItem_encStr
    have := h k (by simp)
    rw [bytesWf] at this
    simpa using this

theorem decodesItem_accessEntry (e : AccessListEntry) (h : accessEntryWf e = true) :
    DecodesItem (accessEntryBytes e) (accessEntryItem e) := by
  rw [accessEntryWf] at h
  simp only [Bool.and_eq_true] at h
  obtain ⟨⟨⟨ha, hk⟩, hkp⟩, hp⟩ := h
  apply decodesItem_encList
  · simp only [accessEntryPayload, accessEntryItem]
    refine decodesList_cons _ _ _ _ (encStr_ne_nil _)
      (decodesItem_encStr e.address (by rw [bytesWf] at ha; simpa using ha)) ?_
    refine decodesList_single _ _ (encList_ne_nil _) ?_
    apply decodesItem_encList _ _
      (decodesList_storageKeys e.storageKeys (by simpa [List.all_eq_true] using hk))
    rw [bytesWf] at hkp
    simpa using hkp
  · rw [bytesWf] at hp
    simpa using hp

theorem decodesList_accessEntries (es : List AccessListEntry)
    (h : ∀ e ∈ es, accessEntryWf e = true) :
    DecodesList (accessListPayload es) (es.map accessEntryItem) := by
  induction es with
  | nil => exact decodesList_nil
  | cons e es ih =>
    rw [accessListPayload, List.map_cons, List.flatten_cons, List.map_cons]
    exact decodesList_cons _ _ _ _ (encList_ne_nil _)
      (decodesItem_accessEntry e (h e (by simp)))
      (ih fun e' he' => h e' (by simp [he']))

theorem decodesItem_accessList (es : List AccessListEntry)
    (h : ∀ e ∈ es, accessEntryWf e = true)
    (hp : bytesWf (accessListPayload es) = true) :
    DecodesItem (accessListBytes es) (accessListItem es) := by
  rw [accessListBytes, accessListItem]
  apply decodesItem_encList _ _ (decodesList_accessEntries es h)
  rw [bytesWf] at hp
  simpa using hp

theorem decodesItem_auth (a : Authorization) (h : authWf a = true) :
    DecodesItem (authBytes a) (authItem a) := by
  rw [authWf] at h
  simp only [Bool.and_eq_true] at h
  obtain ⟨⟨⟨⟨⟨⟨hc, ha⟩, hn⟩, hy⟩, hr⟩, hs⟩, hp⟩ := h
  apply decodesItem_encList
  · simp only [authPayload, authItem]
    refine decodesList_cons _ _ _ _ (natBytes_ne_nil _) (decodesItem_nat a.chainId hc) ?_
    refine decodesList_cons _ _ _ _ (encStr_ne_nil _)
      (decodesItem_encStr a.address (by rw [bytesWf] at ha; simpa using ha)) ?_
    refine decodesList_cons _ _ _ _ (natBytes_ne_nil _) (decodesItem_nat a.nonce hn) ?_
    refine decodesList_cons _ _ _ _ (natBytes_ne_nil _) (decodesItem_nat a.yParity hy) ?_
    refine decodesList_cons _ _ _ _ (natBytes_ne_nil _) (decodesItem_nat a.r hr) ?_
    exact decodesList_single _ _ (natBytes_ne_nil _) (decodesItem_nat a.s hs)
  · rw [bytesWf] at hp
    simpa using hp

theorem decodesList_auths (al : List Authorization)
    (h : ∀ a ∈ al, authWf a = true) :
    DecodesList (authListPayload al) (al.map authItem) := by
  induction al with
  | nil => exact decodesList_nil
  | cons a al ih =>
    rw [authListPayload, List.map_cons, List.flatten_cons, List.map_cons]
    exact decodesList_cons _ _ _ _ (encList_ne_nil _)
      (decodesItem_auth a (h a (by simp)))
      (ih fun a' ha' => h a' (by simp [ha']))

theorem decodesItem_authList (al : List Authorization)
    (h : ∀ a ∈ al, authWf a = true)
    (hp : bytesWf (authListPayload al) = true) :
    DecodesItem (authListBytes al) (authListItem al) := by
  rw [authListBytes, authListItem]
  apply decodesItem_encList _ _ (decodesList_auths al h)
  rw [bytesWf] at hp
  simpa using hp

theorem decodesItem_feePayerSlot (v : FeePayerValue) (h : feePayerWf v = true) :
    DecodesItem (feePayerSlotBytes v) (feePayerSlotItem v) := by
  cases v with
  | undef => exact decodesItem_encStr [] (by norm_num)
  | null => exact decodesItem_encStr [0] (by norm_num)
  | sig y r s =>
    rw [feePayerWf] at h
    simp only [Bool.and_eq_true] at h
    obtain ⟨⟨⟨hy, hr⟩, hs⟩, hp⟩ := h
    simp only [feePayerSlotBytes, feePayerSlotItem]
    apply decodesItem_encList
    · refine decodesList_cons _ _ _ _ (natBytes_ne_nil _) (decodesItem_nat y hy) ?_
      refine decodesList_cons _ _ _ _ (natBytes_ne_nil _) (decodesItem_nat r hr) ?_
      exact decodesList_single _ _ (natBytes_ne_nil _) (decodesItem_nat s hs)
    · rw [bytesWf] at hp
      simpa using hp

theorem decodesItem_feePayerWire (tx : Tx) (opts : SerializeOptions)
    (h : feePayerWireWf tx opts = true) :
    DecodesItem (feePayerWireBytes tx opts) (feePayerWireItem tx opts) := by
  rw [feePayerWireWf] at h
  rw [feePayerWireBytes, feePayerWireItem]
  by_cases hpre : opts.presign
  · rw [if_pos hpre, if_pos hpre]
    exact decodesItem_encStr [] (by norm_num)
  · rw [if_neg hpre, if_neg hpre]
    rw [if_neg hpre] at h
    cases hfmt : opts.format with
    | feePayer sender =>
      rw [hfmt] at h
      simp only [feePayerFormatWf] at h
      simp only [feePayerFormatBytes, feePayerFormatItem]
      apply decodesItem_encStr
      rw [bytesWf] at h
      simpa using h
    | std =>
      rw [hfmt] at h
      simp only [feePayerFormatWf] at h
      simp only [feePayerFormatBytes, feePayerFormatItem]
      exact decodesItem_feePayerSlot _ h

theorem sigBlob_secp_length (r s y : Nat) (hr : natWf r = true) (hs : natWf s = true) :
    (sigBlob (.secp256k1 r s y)).length = 65 := by
  have hr32 : (pad32 r).length = 32 := by
    rw [pad32]
    exact padBE_length 32 r (by rw [natWf] at hr; simp at hr; norm_num; omega)
  have hs32 : (pad32 s).length = 32 := by
    rw [pad32]
    exact padBE_length 32 s (by rw [natWf] at hs; simp at hs; norm_num; omega)
  rw [sigBlob]
  simp [hr32, hs32]

theorem decodesList_sigTrailer (tx : Tx) (opts : SerializeOptions)
    (h : sigTrailerWf tx opts = true) :
    DecodesList (sigTrailerBytes tx opts) (sigTrailerItems tx opts) := by
  rw [sigTrailerWf] at h
  rw [sigTrailerBytes, sigTrailerItems]
  by_cases hpre : opts.presign
  · rw [if_pos hpre, if_pos hpre]
    exact decodesList_nil
  · rw [if_neg hpre, if_neg hpre]
    rw [if_neg hpre] at h
    cases hfmt : opts.format with
    | feePayer sender =>
      simp only [sigTrailerFormatBytes, sigTrailerFormatItems]
      exact decodesList_nil
    | std =>
      rw [hfmt] at h
      simp only [sigTrailerFormatWf] at h
      simp only [sigTrailerFormatBytes, sigTrailerFormatItems]
      cases hsig : effSignature tx opts with
      | none =>
        simp only [sigTrailerStdBytes, sigTrailerStdItems]
        exact decodesList_nil
      | some sg =>
        rw [hsig] at h
        simp only [sigTrailerStdBytes, sigTrailerStdItems]
        refine decodesList_single _ _ (encStr_ne_nil _) ?_
        apply decodesItem_encStr
        cases sg with
        | secp256k1 r s y =>
          rw [sigEnvWf] at h
          simp only [Bool.and_eq_true] at h
          obtain ⟨⟨hr, hs⟩, _⟩ := h
          rw [sigBlob_secp_length r s y hr hs]
          norm_num
        | p256 r s pk ph =>
          rw [sigEnvWf] at h
          simp only [Bool.and_eq_true] at h
          obtain ⟨⟨⟨_, _⟩, _⟩, hb⟩ := h
          rw [bytesWf] at hb
          simpa using hb

/-- The complete field payload decodes to the corresponding item sequence. -/
theorem decodesList_txFields (tx : Tx) (opts : SerializeOptions)
    (h : txWf tx opts = true) :
    DecodesList (txFieldBytes tx opts) (txFieldItems tx opts) := by
  rw [txWf] at h
  simp only [Bool.and_eq_true] at h
  obtain ⟨⟨⟨⟨⟨⟨⟨⟨⟨⟨⟨⟨⟨⟨⟨⟨⟨h1, h2⟩, h3⟩, h4⟩, h5⟩, h6⟩, h7⟩, h8⟩, h9⟩, h10⟩,
    h11⟩, h12⟩, h13⟩, h14⟩, h15⟩, h16⟩, h17⟩, _⟩ := h
  rw [txFieldBytes, txFieldItems]
  simp only [List.cons_append, List.nil_append]
  refine decodesList_cons _ _ _ _ (natBytes_ne_nil _) (decodesItem_nat _ h1) ?_
  refine decodesList_cons _ _ _ _ (optNatBytes_ne_nil _) (decodesItem_optNat _ h2) ?_
  refine decodesList_cons _ _ _ _ (optNatBytes_ne_nil _) (decodesItem_optNat _ h3) ?_
  refine decodesList_cons _ _ _ _ (optNatBytes_ne_nil _) (decodesItem_optNat _ h4) ?_
  refine decodesList_cons _ _ _ _ (encList_ne_nil _)
    (decodesItem_calls _ (by simpa [List.all_eq_true] using h5) h6) ?_
  refine decodesList_cons _ _ _ _ (encList_ne_nil _)
    (decodesItem_accessList _ (by simpa [List.all_eq_true] using h7) h8) ?_
  refine decodesList_cons _ _ _ _ (natBytes_ne_nil _) (decodesItem_nat _ h9) ?_
  refine decodesList_cons _ _ _ _ (natBytes_ne_nil _) (decodesItem_nat _ h10) ?_
  refine decodesList_cons _ _ _ _ (optNatBytes_ne_nil _) (decodesItem_optNat _ h11) ?_
  refine decodesList_cons _ _ _ _ (optNatBytes_ne_nil _) (decodesItem_optNat _ h12) ?_
  refine decodesList_cons _ _ _ _ (optStrBytes_ne_nil _) (decodesItem_optStr _ h13) ?_
  refine decodesList_cons _ _ _ _ (feePayerWireBytes_ne_nil tx opts)
    (decodesItem_feePayerWire tx opts h14) ?_
  refine decodesList_cons _ _ _ _ (encList_ne_nil _)
    (decodesItem_authList _ (by simpa [List.all_eq_true] using h15) h16) ?_
  exact decodesList_sigTrailer tx opts h17

/-! ## Per-slot parse lemmas -/

theorem parseNat_natItem (bytes : List Nat) (n : Nat) :
    parseNat bytes (natItem n) = .ok n := by
  simp [parseNat, parseStr, natItem, Except.map, beToNat_beBytes]

theorem parseOptNat_optNatItem (bytes : List Nat) (v : Option Nat)
    (h : optNatCanon v = true) :
    parseOptNat bytes (optNatItem v) = .ok v := by
  cases v with
  | none => rfl
  | some n =>
    have hn : n ≠ 0 := by simpa [optNatCanon] using h
    obtain ⟨b, bs, hb⟩ : ∃ b bs, beBytes n = b :: bs := by
      rcases hx : beBytes n with _ | ⟨b, bs⟩
      · rw [beBytes_eq_nil_iff] at hx
        omega
      · exact ⟨b, bs, rfl⟩
    simp only [optNatItem, hb, parseOptNat]
    rw [← hb, beToNat_beBytes]

theorem parseOptStr_optStrItem (bytes : List Nat) (v : Option (List Nat))
    (h : optBytesCanon v = true) :
    parseOptStr bytes (optStrItem v) = .ok v := by
  cases v with
  | none => rfl
  | some a =>
    obtain ⟨b, bs, hb⟩ : ∃ b bs, a = b :: bs := by
      rcases a with _ | ⟨b, bs⟩
      · simp [optBytesCanon] at h
      · exact ⟨b, bs, rfl⟩
    simp only [optStrItem, hb, parseOptStr]

theorem parseCall_callItem (bytes : List Nat) (c : Call) (h : callCanon c = true) :
    parseCall bytes (callItem c) = .ok c := by
  rw [callCanon] at h
  simp only [Bool.and_eq_true] at h
  obtain ⟨⟨hto, hv⟩, hd⟩ := h
  simp only [callItem, parseCall]
  rw [parseOptStr_optStrItem bytes c.to hto]
  rw [parseOptNat_optNatItem bytes c.value hv]
  rw [parseOptStr_optStrItem bytes c.data hd]
  rfl

theorem mapM_parseCall (bytes : List Nat) (cs : List Call)
    (h : ∀ c ∈ cs, callCanon c = true) :
    (cs.map callItem).mapM (parseCall bytes) = .ok cs := by
  induction cs with
  | nil => rfl
  | cons c cs ih =>
    rw [List.map_cons, List.mapM_cons]
    rw [parseCall_callItem bytes c (h c (by simp))]
    rw [ih fun c' hc' => h c' (by simp [hc'])]
    rfl

theorem parseCalls_callsItem (bytes : List Nat) (cs : List Call) (hne : cs ≠ [])
    (h : ∀ c ∈ cs, callCanon c = true) :
    parseCalls bytes (callsItem cs) = .ok cs := by
  obtain ⟨c, cs', rfl⟩ : ∃ c cs', cs = c :: cs' := by
    cases cs with
    | nil => exact absurd rfl hne
    | cons c cs' => exact ⟨c, cs', rfl⟩
  rw [callsItem, List.map_cons]
  rw [parseCalls]
  rw [← List.map_cons]
  exact mapM_parseCall bytes (c :: cs') h

theorem mapM_parseStr (bytes : List Nat) (ks : List (List Nat)) :
    (ks.map Item.str).mapM (parseStr bytes) = .ok ks := by
  induction ks with
  | nil => rfl
  | cons k ks ih =>
    rw [List.map_cons, List.mapM_cons]
    rw [show parseStr bytes (.str k) = .ok k from rfl, ih]
    rfl

theorem parseAccessEntry_item (bytes : List Nat) (e : AccessListEntry) :
    parseAccessEntry bytes (accessEntryItem e) = .ok e := by
  simp only [accessEntryItem, parseAccessEntry]
  rw [show parseStr bytes (.str e.address) = .ok e.address from rfl]
  rw [show parseStorageKeys bytes (.list (e.storageKeys.map Item.str)) =
    (e.storageKeys.map Item.str).mapM (parseStr bytes) from rfl]
  rw [mapM_parseStr]
  rfl

theorem parseAccessList_item (bytes : List Nat) (es : List AccessListEntry) :
    parseAccessList bytes (accessListItem es) = .ok es := by
  rw [accessListItem]
  rw [show parseAccessList bytes (.list (es.map accessEntryItem)) =
    (es.map accessEntryItem).mapM (parseAccessEntry bytes) from rfl]
  induction es with
  | nil => rfl
  | cons e es ih =>
    rw [List.map_cons, List.mapM_cons, parseAccessEntry_item bytes e, ih]
    rfl

theorem parseAuth_item (bytes : List Nat) (a : Authorization) :
    parseAuth bytes (authItem a) = .ok a := by
  simp only [authItem, parseAuth]
  rw [parseNat_natItem bytes a.chainId]
  rw [show parseStr bytes (.str a.address) = .ok a.address from rfl]
  rw [parseNat_natItem bytes a.nonce, parseNat_natItem bytes a.yParity]
  rw [parseNat_natItem bytes a.r, parseNat_natItem bytes a.s]
  rfl

theorem parseAuthList_item (bytes : List Nat) (al : List Authorization) :
    parseAuthList bytes (authListItem al) = .ok al := by
  rw [authListItem]
  rw [show parseAuthList bytes (.list (al.map authItem)) =
    (al.map authItem).mapM (parseAuth bytes) from rfl]
  induction al with
  | nil => rfl
  | cons a al ih =>
    rw [List.map_cons, List.mapM_cons, parseAuth_item bytes a, ih]
    rfl

theorem parseFeePayer_slotItem (bytes : List Nat) (v : FeePayerValue) :
    parseFeePayer bytes (feePayerSlotItem v) = .ok v := by
  cases v with
  | undef => rfl
  | null => rfl
  | sig y r s =>
    simp only [feePayerSlotItem, parseFeePayer]
    rw [parseNat_natItem bytes y, parseNat_natItem bytes r, parseNat_natItem bytes s]
    rfl

theorem parseSignature_p256_aux (bytes : List Nat) (r s : Nat) (pk : List Nat)
    (flg : Nat) (ph : Bool) (hr32 : (pad32 r).length = 32)
    (hs32 : (pad32 s).length = 32) (hpk : pk ≠ [])
    (hflag : (flg == 1) = ph) :
    parseSignature bytes (.str (pad32 r ++ (pad32 s ++ (flg :: pk)))) =
      .ok (.p256 r s pk ph) := by
  have hlen : (pad32 r ++ (pad32 s ++ (flg :: pk))).length = 65 + pk.length := by
    simp [hr32, hs32]
    omega
  have htake : (pad32 r ++ (pad32 s ++ (flg :: pk))).take 32 = pad32 r := by
    conv_lhs => rw [← hr32]
    exact List.take_left _ _
  have hdrop : (pad32 r ++ (pad32 s ++ (flg :: pk))).drop 32 =
      pad32 s ++ (flg :: pk) := by
    conv_lhs => rw [← hr32]
    exact List.drop_left _ _
  have htake2 : (pad32 s ++ (flg :: pk)).take 32 = pad32 s := by
    conv_lhs => rw [← hs32]
    exact List.take_left _ _
  have hdrop64 : (pad32 r ++ (pad32 s ++ (flg :: pk))).drop 64 = flg :: pk := by
    rw [(List.append_assoc _ _ _).symm]
    have h64 : (pad32 r ++ pad32 s).length = 64 := by simp [hr32, hs32]
    conv_lhs => rw [← h64]
    exact List.drop_left _ _
  have hdrop65 : (pad32 r ++ (pad32 s ++ (flg :: pk))).drop 65 = pk := by
    have hshape : pad32 r ++ (pad32 s ++ (flg :: pk)) =
        ((pad32 r ++ pad32 s) ++ [flg]) ++ pk := by
      simp [List.append_assoc]
    rw [hshape]
    have h65 : ((pad32 r ++ pad32 s) ++ [flg]).length = 65 := by simp [hr32, hs32]
    conv_lhs => rw [← h65]
    exact List.drop_left _ _
  have hpos : 0 < pk.length := List.length_pos.mpr hpk
  rw [parseSignature]
  simp only [parseStr, Bind.bind, Except.bind]
  rw [if_neg (by omega), if_pos (by omega)]
  rw [htake, hdrop, htake2, hdrop64, hdrop65]
  simp [pad32, beToNat_padBE, hflag]

theorem parseSignature_sigBlob (bytes : List Nat) (sg : SignatureEnvelope)
    (h : sigEnvWf (some sg) = true) :
    parseSignature bytes (.str (sigBlob sg)) = .ok sg := by
  cases sg with
  | secp256k1 r s y =>
    rw [sigEnvWf] at h
    simp only [Bool.and_eq_true] at h
    obtain ⟨⟨hr, hs⟩, _⟩ := h
    have hr32 : (pad32 r).length = 32 := by
      rw [pad32]
      exact padBE_length 32 r (by rw [natWf] at hr; simp at hr; norm_num; omega)
    have hs32 : (pad32 s).length = 32 := by
      rw [pad32]
      exact padBE_length 32 s (by rw [natWf] at hs; simp at hs; norm_num; omega)
    have hlen : (pad32 r ++ (pad32 s ++ [27 + y])).length = 65 := by
      simp [hr32, hs32]
    have htake : (pad32 r ++ (pad32 s ++ [27 + y])).take 32 = pad32 r := by
      conv_lhs => rw [← hr32]
      exact List.take_left _ _
    have hdrop : (pad32 r ++ (pad32 s ++ [27 + y])).drop 32 = pad32 s ++ [27 + y] := by
      conv_lhs => rw [← hr32]
      exact List.drop_left _ _
    have htake2 : (pad32 s ++ [27 + y]).take 32 = pad32 s := by
      conv_lhs => rw [← hs32]
      exact List.take_left _ _
    have hdrop64 : (pad32 r ++ (pad32 s ++ [27 + y])).drop 64 = [27 + y] := by
      rw [(List.append_assoc _ _ _).symm]
      have h64 : (pad32 r ++ pad32 s).length = 64 := by simp [hr32, hs32]
      conv_lhs => rw [← h64]
      exact List.drop_left _ _
    rw [sigBlob, parseSignature]
    simp only [parseStr, Bind.bind, Except.bind]
    rw [if_pos hlen, htake, hdrop, htake2, hdrop64]
    simp [pad32, beToNat_padBE]
  | p256 r s pk ph =>
    rw [sigEnvWf] at h
    simp only [Bool.and_eq_true] at h
    obtain ⟨⟨⟨hr, hs⟩, hpk⟩, _⟩ := h
    have hr32 : (pad32 r).length = 32 := by
      rw [pad32]
      exact padBE_length 32 r (by rw [natWf] at hr; simp at hr; norm_num; omega)
    have hs32 : (pad32 s).length = 32 := by
      rw [pad32]
      exact padBE_length 32 s (by rw [natWf] at hs; simp at hs; norm_num; omega)
    rw [sigBlob]
    exact parseSignature_p256_aux bytes r s pk _ ph hr32 hs32 (by simpa using hpk)
      (by cases ph <;> rfl)

/-! ## The master parse and round-trip lemmas -/

theorem rlpDecodeTop_encList (p : List Nat) (its : List Item)
    (hp : DecodesList p its) (h : p.length < 2 ^ 64) :
    rlpDecodeTop (encList p) = some (.list its) := by
  have hd := decodesItem_encList p its hp h (2 * (encList p).length) []
    (by omega)
  rw [List.append_nil] at hd
  rw [rlpDecodeTop, hd]

theorem parseItems_txFieldItems (bytes : List Nat) (tx : Tx)
    (hc : txCanon tx = true) (hne : tx.calls ≠ [])
    (hs : sigEnvWf tx.signature = true) :
    parseItems bytes (txFieldItems tx {}) = .ok tx := by
  rw [txCanon] at hc
  simp only [Bool.and_eq_true] at hc
  obtain ⟨⟨⟨⟨⟨⟨c1, c2⟩, c3⟩, c4⟩, c5⟩, c6⟩, c7⟩ := hc
  have e1 : parseNat bytes (natItem tx.chainId) = .ok tx.chainId :=
    parseNat_natItem bytes tx.chainId
  have e2 : parseOptNat bytes (optNatItem tx.maxPriorityFeePerGas) =
      .ok tx.maxPriorityFeePerGas := parseOptNat_optNatItem bytes _ c1
  have e3 : parseOptNat bytes (optNatItem tx.maxFeePerGas) =
      .ok tx.maxFeePerGas := parseOptNat_optNatItem bytes _ c2
  have e4 : parseOptNat bytes (optNatItem tx.gas) = .ok tx.gas :=
    parseOptNat_optNatItem bytes _ c3
  have e5 : parseCalls bytes (callsItem tx.calls) = .ok tx.calls :=
    parseCalls_callsItem bytes _ hne (by simpa [List.all_eq_true] using c4)
  have e6 : parseAccessList bytes (accessListItem tx.accessList) =
      .ok tx.accessList := parseAccessList_item bytes _
  have e7 : parseNat bytes (natItem tx.nonceKey) = .ok tx.nonceKey :=
    parseNat_natItem bytes tx.nonceKey
  have e8 : parseNat bytes (natItem tx.nonce) = .ok tx.nonce :=
    parseNat_natItem bytes tx.nonce
  have e9 : parseOptNat bytes (optNatItem tx.validBefore) =
      .ok tx.validBefore := parseOptNat_optNatItem bytes _ c5
  have e10 : parseOptNat bytes (optNatItem tx.validAfter) =
      .ok tx.validAfter := parseOptNat_optNatItem bytes _ c6
  have e11 : parseOptStr bytes (optStrItem tx.feeToken) = .ok tx.feeToken :=
    parseOptStr_optStrItem bytes _ c7
  have e12 : parseFeePayer bytes (feePayerSlotItem tx.feePayerSignature) =
      .ok tx.feePayerSignature := parseFeePayer_slotItem bytes _
  have e13 : parseAuthList bytes (authListItem tx.authorizationList) =
      .ok tx.authorizationList := parseAuthList_item bytes _
  have hfp : feePayerWireItem tx {} = feePayerSlotItem tx.feePayerSignature := rfl
  have htr : sigTrailerItems tx {} = sigTrailerStdItems tx.signature := rfl
  rw [txFieldItems, hfp, htr]
  cases hsg : tx.signature with
  | none =>
    simp only [sigTrailerStdItems]
    rw [List.append_nil]
    rw [parseItems]
    rw [if_neg (by simp)]
    simp only [Bind.bind, Except.bind, e1, e2, e3, e4, e5, e6, e7, e8, e9,
      e10, e11, e12]
    rw [show parseAuthSlot bytes [authListItem tx.authorizationList] =
      parseAuthList bytes (authListItem tx.authorizationList) from rfl, e13]
    rw [show parseSigSlot bytes [authListItem tx.authorizationList] =
      .ok none from rfl]
    rw [← hsg]
  | some sg =>
    simp only [sigTrailerStdItems]
    simp only [List.cons_append, List.nil_append]
    rw [parseItems]
    rw [if_neg (by simp)]
    simp only [Bind.bind, Except.bind, e1, e2, e3, e4, e5, e6, e7, e8, e9,
      e10, e11, e12]
    rw [show parseAuthSlot bytes
      [authListItem tx.authorizationList, .str (sigBlob sg)] =
      parseAuthList bytes (authListItem tx.authorizationList) from rfl, e13]
    rw [show parseSigSlot bytes
      [authListItem tx.authorizationList, .str (sigBlob sg)] =
      (parseSignature bytes (.str (sigBlob sg))).map some from rfl]
    rw [parseSignature_sigBlob bytes sg (hsg ▸ hs)]
    simp only [Except.map]
    simp only [← hsg]

theorem deserialize_cons (rest : List Nat) :
    deserialize (0x76 :: rest) =
      (match rlpDecodeTop rest with
       | some (.list items) => parseItems (0x76 :: rest) items
       | _ => .error (.InvalidSerialized (0x76 :: rest) [])) := rfl

theorem deserialize_serialize (tx : Tx)
    (hwf : txWf tx {} = true) (hc : txCanon tx = true)
    (hne : tx.calls ≠ []) (hs : sigEnvWf tx.signature = true) :
    deserialize (serialize tx {}) = .ok tx := by
  have hbytes : bytesWf (txFieldBytes tx {}) = true := by
    rw [txWf] at hwf
    simp only [Bool.and_eq_true] at hwf
    exact hwf.2
  have hlen : (txFieldBytes tx {}).length < 2 ^ 64 := by
    rw [bytesWf] at hbytes
    simpa using hbytes
  have hdec := rlpDecodeTop_encList (txFieldBytes tx {}) (txFieldItems tx {})
    (decodesList_txFields tx {} hwf) hlen
  rw [show serialize tx {} = 0x76 :: encList (txFieldBytes tx {}) from rfl]
  rw [deserialize_cons, hdec]
  exact parseItems_txFieldItems _ tx hc hne hs

/-! ## C1: round trip of valid drafts -/

/-- An otherwise-valid draft carrying an explicit `gas = 0`, which the wire
encodes as the empty string and so cannot distinguish from an absent `gas`. -/
def draftGasZero : Draft :=
  { chainId := 1, calls := [{}], nonce := some 0, gas := some 0 }

/-- A valid draft exercising gas, accessList, nonce, nonceKey, validBefore,
validAfter, feeToken, multiple calls, an authorization list, a signature and
a fee-payer signature. -/
def draftRich : Draft :=
  { chainId := 1
    calls := [{ «to» := some addr7099, value := some 1000, data := some [0xde, 0xad] },
              { «to» := some senderF39f }]
    gas := some 21000
    maxFeePerGas := some 2000000000
    maxPriorityFeePerGas := some 1000000000
    accessList := [{ address := addr7099, storageKeys := [List.replicate 32 0x11] }]
    nonce := some 785
    nonceKey := some 5
    validBefore := some 200
    validAfter := some 100
    feeToken := some addr7099
    authorizationList := [{ chainId := 1, address := senderF39f, nonce := 7,
                            yParity := 1, r := 12345, s := 67890 }]
    signature := some (.secp256k1 (2 ^ 255) (2 ^ 200) 1)
    feePayerSignature := .sig 1 3 4 }

/-- C1 counterexample: the draft `{ chainId: 1, calls: [{}], nonce: 0,
gas: 0 }` is valid (`validate` returns true), yet deserializing its
serialization does not return the normalized envelope — the explicit
`gas = 0` encodes as the empty string, which decodes back as an absent
`gas`. -/
theorem aa_roundtrip_counterexample :
    validate draftGasZero = true ∧
      deserialize (serialize (fromDraft draftGasZero) {}) ≠
        .ok (fromDraft draftGasZero) := by
  decide

/-- C1 (corrected): for every valid draft whose normalized envelope is
within the RLP size bounds (`txWf`), is canonical — no present optional
field carries the zero/empty default that the wire encodes identically to
absence (`txCanon`) — and carries a well-formed signature envelope if any,
deserializing the serialization returns the normalized envelope:
`deserialize (serialize (from d)) = from d`. -/
theorem aa_roundtrip (d : Draft) (hv : validate d = true)
    (hwf : txWf (fromDraft d) {} = true) (hcanon : txCanon (fromDraft d) = true)
    (hsig : sigEnvWf (fromDraft d).signature = true) :
    deserialize (serialize (fromDraft d) {}) = .ok (fromDraft d) := by
  have hne : (fromDraft d).calls ≠ [] := by
    intro h
    have hd : d.calls = [] := h
    rw [validate, assertDraft, if_pos hd] at hv
    exact Bool.false_ne_true hv
  exact deserialize_serialize (fromDraft d) hwf hcanon hne hsig

/-- C1 witness: the round trip holds for the minimal draft of the test file
and for a rich valid draft carrying every optional field, multiple calls and
a signature. -/
theorem aa_roundtrip_witness :
    deserialize (serialize (fromDraft draftMinimal) {}) =
        .ok (fromDraft draftMinimal) ∧
      deserialize (serialize (fromDraft draftRich) {}) =
        .ok (fromDraft draftRich) :=
  ⟨aa_roundtrip draftMinimal (by decide) (by decide) (by decide) (by decide),
   aa_roundtrip draftRich (by decide) (by decide) (by decide) (by decide)⟩

/-! ## C5: empty-calls rejection -/

theorem parseOptNat_optNatItem_ok (bytes : List Nat) (v : Option Nat) :
    ∃ w, parseOptNat bytes (optNatItem v) = .ok w := by
  cases v with
  | none => exact ⟨none, rfl⟩
  | some n =>
    cases hb : beBytes n with
    | nil => exact ⟨none, by simp [optNatItem, hb, parseOptNat]⟩
    | cons b bs => exact ⟨some (beToNat (b :: bs)), by simp [optNatItem, hb, parseOptNat]⟩

theorem parseItems_callsEmpty (bytes : List Nat) (tx : Tx)
    (htx : tx.calls = []) :
    parseItems bytes (txFieldItems tx {}) = .error .CallsEmpty := by
  obtain ⟨w2, e2⟩ := parseOptNat_optNatItem_ok bytes tx.maxPriorityFeePerGas
  obtain ⟨w3, e3⟩ := parseOptNat_optNatItem_ok bytes tx.maxFeePerGas
  obtain ⟨w4, e4⟩ := parseOptNat_optNatItem_ok bytes tx.gas
  have e1 : parseNat bytes (natItem tx.chainId) = .ok tx.chainId :=
    parseNat_natItem bytes tx.chainId
  have e5 : parseCalls bytes (callsItem tx.calls) = .error .CallsEmpty := by
    rw [htx]
    rfl
  have htr : sigTrailerItems tx {} = sigTrailerStdItems tx.signature := rfl
  have hfp : feePayerWireItem tx {} = feePayerSlotItem tx.feePayerSignature := rfl
  rw [txFieldItems, hfp, htr]
  cases tx.signature with
  | none =>
    simp only [sigTrailerStdItems]
    rw [List.append_nil]
    rw [parseItems]
    rw [if_neg (by simp)]
    simp only [Bind.bind, Except.bind, e1, e2, e3, e4, e5]
  | some sg =>
    simp only [sigTrailerStdItems]
    simp only [List.cons_append, List.nil_append]
    rw [parseItems]
    rw [if_neg (by simp)]
    simp only [Bind.bind, Except.bind, e1, e2, e3, e4, e5]

/-- C5: a Batched envelope whose `calls` list is empty is rejected with
`CallsEmpty` on every path, regardless of every other field: `assert` on a
draft with `calls = []` fails with `CallsEmpty` and `validate` returns
false, and decoding the otherwise well-formed wire bytes of any envelope
whose calls slot is the empty list fails with `CallsEmpty`. -/
theorem callsEmpty_rejection (d : Draft) (tx : Tx)
    (hd : d.calls = []) (htx : tx.calls = [])
    (hwf : txWf tx {} = true) :
    assertDraft d = .error .CallsEmpty ∧ validate d = false ∧
      deserialize (serialize tx {}) = .error .CallsEmpty := by
  refine ⟨?_, ?_, ?_⟩
  · rw [assertDraft, if_pos hd]
  · rw [validate, assertDraft, if_pos hd]
  · have hbytes : bytesWf (txFieldBytes tx {}) = true := by
      rw [txWf] at hwf
      simp only [Bool.and_eq_true] at hwf
      exact hwf.2
    have hlen : (txFieldBytes tx {}).length < 2 ^ 64 := by
      rw [bytesWf] at hbytes
      simpa using hbytes
    have hdec := rlpDecodeTop_encList (txFieldBytes tx {}) (txFieldItems tx {})
      (decodesList_txFields tx {} hwf) hlen
    rw [show serialize tx {} = 0x76 :: encList (txFieldBytes tx {}) from rfl]
    rw [deserialize_cons, hdec]
    exact parseItems_callsEmpty _ tx htx

/-- C5 witness: the empty-calls draft with otherwise-valid fields is
rejected by `assert` and `validate`, and its well-formed wire bytes are
rejected by `deserialize`, all with `CallsEmpty`. -/
theorem callsEmpty_rejection_witness :
    assertDraft { chainId := 1, calls := [], nonce := some 0 } =
        .error .CallsEmpty ∧
      validate { chainId := 1, calls := [], nonce := some 0 } = false ∧
      deserialize (serialize (fromDraft
          { chainId := 1, calls := [], nonce := some 0 }) {}) =
        .error .CallsEmpty :=
  callsEmpty_rejection { chainId := 1, calls := [], nonce := some 0 }
    (fromDraft { chainId := 1, calls := [], nonce := some 0 })
    (by decide) (by decide) (by decide)

/-! ## C2: the fee-payer wire slot -/

/-- C2 counterexample: an empty fee-payer slot decodes to the absent value
(`undefined`), not to `null`, and the three-element list `[0x00, 0x01, 0x02]`
decodes with the wire order `[yParity, r, s]` — yielding
`{yParity = 0, r = 1, s = 2}` — not the claimed order `[r, s, yParity]`,
which would yield `{r = 0, s = 1, yParity = 2}`. -/
theorem feePayer_slot_counterexample :
    parseFeePayer [] (.str []) = .ok .undef ∧
      (.ok FeePayerValue.undef : Except Err FeePayerValue) ≠ .ok .null ∧
      parseFeePayer [] (.list [natItem 0, natItem 1, natItem 2]) =
        .ok (.sig 0 1 2) ∧
      FeePayerValue.sig 0 1 2 ≠ .sig 2 0 1 := by
  decide

/-- C2 (corrected): the fee-payer wire slot has exactly four RLP shapes —
the empty string when the value is absent, the one-byte string `0x00` for an
explicit `null`, a raw sender address under the fee-payer serialization
format, and the three-element list `[yParity, r, s]` for a signature tuple —
and on decode the shape alone determines the result: an empty slot yields
the absent value, any nonempty string slot (the `0x00` placeholder or a
bare address, which is discarded) yields `null`, and a three-element list
reconstructs the exact `{yParity, r, s}` tuple. -/
theorem feePayer_slot_shapes (bytes sender a : List Nat) (b y r s : Nat)
    (tx : Tx) (opts : SerializeOptions) :
    feePayerSlotBytes .undef = encStr [] ∧
      feePayerSlotBytes .null = encStr [0] ∧
      feePayerSlotBytes (.sig y r s) =
        encList (natBytes y ++ (natBytes r ++ natBytes s)) ∧
      feePayerFormatBytes tx opts (.feePayer sender) = encStr sender ∧
      parseFeePayer bytes (.str []) = .ok .undef ∧
      parseFeePayer bytes (.str (b :: a)) = .ok .null ∧
      parseFeePayer bytes (.list [natItem y, natItem r, natItem s]) =
        .ok (.sig y r s) :=
  ⟨rfl, rfl, rfl, rfl, rfl, rfl, parseFeePayer_slotItem bytes (.sig y r s)⟩

/-! ## C4: field-count discipline of the decoder -/

theorem parseItems_short (bytes : List Nat) (items : List Item)
    (h : items.length < 12) :
    parseItems bytes items =
      .error (.InvalidSerialized bytes (requiredFieldNames.drop items.length)) := by
  rcases items with _ | ⟨i1, items⟩
  · rfl
  rcases items with _ | ⟨i2, items⟩
  · rfl
  rcases items with _ | ⟨i3, items⟩
  · rfl
  rcases items with _ | ⟨i4, items⟩
  · rfl
  rcases items with _ | ⟨i5, items⟩
  · rfl
  rcases items with _ | ⟨i6, items⟩
  · rfl
  rcases items with _ | ⟨i7, items⟩
  · rfl
  rcases items with _ | ⟨i8, items⟩
  · rfl
  rcases items with _ | ⟨i9, items⟩
  · rfl
  rcases items with _ | ⟨i10, items⟩
  · rfl
  rcases items with _ | ⟨i11, items⟩
  · rfl
  rcases items with _ | ⟨i12, items⟩
  · rfl
  simp only [List.length_cons] at h
  omega

theorem parseItems_long (bytes : List Nat) (items : List Item)
    (h : 14 < items.length) :
    parseItems bytes items = .error (.InvalidSerialized bytes []) := by
  rcases items with _ | ⟨i1, items⟩
  · simp at h
  rcases items with _ | ⟨i2, items⟩
  · simp at h
  rcases items with _ | ⟨i3, items⟩
  · simp at h
  rcases items with _ | ⟨i4, items⟩
  · simp at h
  rcases items with _ | ⟨i5, items⟩
  · simp at h
  rcases items with _ | ⟨i6, items⟩
  · simp at h
  rcases items with _ | ⟨i7, items⟩
  · simp at h
  rcases items with _ | ⟨i8, items⟩
  · simp at h
  rcases items with _ | ⟨i9, items⟩
  · simp at h
  rcases items with _ | ⟨i10, items⟩
  · simp at h
  rcases items with _ | ⟨i11, items⟩
  · simp at h
  rcases items with _ | ⟨i12, items⟩
  · simp at h
  simp only [List.length_cons] at h
  rw [parseItems]
  rw [if_pos (by omega)]

/-- C4 counterexample: the unsigned wire shape already has thirteen decoded
fields (the twelve required slots plus the authorization list); appending
the claimed three extra trailing fields `[r, s, yParity]` gives sixteen,
which `parseItems` rejects with `InvalidSerialized` instead of
reconstructing a signature, while the actually signed serialization carries
exactly one extra trailing field — the 65-byte signature blob, fourteen
fields in all — and decodes to the signed envelope. -/
theorem parse_field_count_counterexample :
    (txFieldItems (fromDraft draftMinimal) {}).length = 13 ∧
      (txFieldItems (fromDraft draftMinimal) {} ++
          [natItem 1, natItem 2, natItem 0]).length = 16 ∧
      parseItems [] (txFieldItems (fromDraft draftMinimal) {} ++
          [natItem 1, natItem 2, natItem 0]) =
        .error (.InvalidSerialized [] []) ∧
      (txFieldItems (fromDraft
          { draftMinimal with signature := some (.secp256k1 1 2 0) }) {}).length = 14 ∧
      parseItems [] (txFieldItems (fromDraft
          { draftMinimal with signature := some (.secp256k1 1 2 0) }) {}) =
        .ok (fromDraft
          { draftMinimal with signature := some (.secp256k1 1 2 0) }) := by
  decide

/-- C4 (corrected): `parseItems` decides malformedness and signedness purely
by the decoded field count — fewer than the twelve required fields raises
`InvalidSerialized` naming, in order, every missing required field; more
than fourteen fields (the signed count) raises `InvalidSerialized` carrying
the offending serialized bytes; a canonical well-formed envelope without a
signature decodes from exactly thirteen fields with `signature` absent, and
with a signature from exactly fourteen fields — one extra trailing
signature-blob field, not three. -/
theorem parse_field_count (bytes : List Nat) (shortItems longItems : List Item)
    (tx : Tx) (hcanon : txCanon tx = true) (hne : tx.calls ≠ [])
    (hsig : sigEnvWf tx.signature = true) :
    (shortItems.length < 12 →
        parseItems bytes shortItems =
          .error (.InvalidSerialized bytes
            (requiredFieldNames.drop shortItems.length))) ∧
      (14 < longItems.length →
        parseItems bytes longItems = .error (.InvalidSerialized bytes [])) ∧
      (tx.signature = none →
        (txFieldItems tx {}).length = 13 ∧
          parseItems bytes (txFieldItems tx {}) = .ok tx) ∧
      ∀ sg, tx.signature = some sg →
        (txFieldItems tx {}).length = 14 ∧
          parseItems bytes (txFieldItems tx {}) = .ok tx := by
  refine ⟨parseItems_short bytes shortItems, parseItems_long bytes longItems, ?_, ?_⟩
  · intro hsg
    refine ⟨?_, parseItems_txFieldItems bytes tx hcanon hne hsig⟩
    simp [txFieldItems,
      show sigTrailerItems tx {} = sigTrailerStdItems tx.signature from rfl,
      hsg, sigTrailerStdItems]
  · intro sg hsg
    refine ⟨?_, parseItems_txFieldItems bytes tx hcanon hne hsig⟩
    simp [txFieldItems,
      show sigTrailerItems tx {} = sigTrailerStdItems tx.signature from rfl,
      hsg, sigTrailerStdItems]

/-- C4 witness: a one-field list is rejected naming the eleven missing
required fields, a fifteen-field list is rejected with the offending bytes,
and the minimal unsigned envelope decodes from its thirteen fields. -/
theorem parse_field_count_witness :
    parseItems [] [natItem 1] =
        .error (.InvalidSerialized [] (requiredFieldNames.drop 1)) ∧
      parseItems [] (List.replicate 15 (natItem 0)) =
        .error (.InvalidSerialized [] []) ∧
      ((txFieldItems (fromDraft draftMinimal) {}).length = 13 ∧
        parseItems [] (txFieldItems (fromDraft draftMinimal) {}) =
          .ok (fromDraft draftMinimal)) :=
  ⟨(parse_field_count [] [natItem 1] (List.replicate 15 (natItem 0))
      (fromDraft draftMinimal) (by decide) (by decide) (by decide)).1 (by decide),
   (parse_field_count [] [natItem 1] (List.replicate 15 (natItem 0))
      (fromDraft draftMinimal) (by decide) (by decide) (by decide)).2.1 (by decide),
   (parse_field_count [] [natItem 1] (List.replicate 15 (natItem 0))
      (fromDraft draftMinimal) (by decide) (by decide) (by decide)).2.2.1 rfl⟩

/-! ## C3: hash domain separation -/

theorem optStrItem_inj (A B : Option (List Nat)) (hA : optBytesCanon A = true)
    (hB : optBytesCanon B = true) (h : optStrItem A = optStrItem B) : A = B := by
  cases A with
  | none =>
    cases B with
    | none => rfl
    | some b =>
      simp only [optStrItem] at h
      have hb := Item.str.inj h
      rw [← hb] at hB
      simp [optBytesCanon] at hB
  | some a =>
    cases B with
    | none =>
      simp only [optStrItem] at h
      have ha := Item.str.inj h
      rw [ha] at hA
      simp [optBytesCanon] at hA
    | some b =>
      simp only [optStrItem] at h
      rw [Item.str.inj h]

/-- C3: for any injective hash primitive, the fee-payer signing payload of a
fixed envelope separates the fee token — with `feeToken = A` it differs from
the same call with `feeToken = B` whenever `A ≠ B` — while the primary
signing payload `getSignPayload` is identical whether or not a signature or
a fee-payer value is present on the envelope. -/
theorem hash_domain_separation (keccak256 : List Nat → List Nat)
    (hinj : Function.Injective keccak256) (tx : Tx) (sender : List Nat)
    (A B : Option (List Nat))
    (hwfA : txWf { tx with feeToken := A } { format := .feePayer sender } = true)
    (hwfB : txWf { tx with feeToken := B } { format := .feePayer sender } = true)
    (hcA : optBytesCanon A = true) (hcB : optBytesCanon B = true)
    (hAB : A ≠ B) :
    getFeePayerSignPayload keccak256 { tx with feeToken := A } sender ≠
        getFeePayerSignPayload keccak256 { tx with feeToken := B } sender ∧
      ∀ sg fp, getSignPayload keccak256
          { tx with signature := sg, feePayerSignature := fp } =
        getSignPayload keccak256 tx := by
  constructor
  · intro heq
    apply hAB
    have hbytes : getFeePayerSignPayloadBytes { tx with feeToken := A } sender =
        getFeePayerSignPayloadBytes { tx with feeToken := B } sender := hinj heq
    rw [getFeePayerSignPayloadBytes, serialize, getFeePayerSignPayloadBytes,
      serialize] at hbytes
    have hlist : encList (txFieldBytes { tx with feeToken := A }
          { format := .feePayer sender }) =
        encList (txFieldBytes { tx with feeToken := B }
          { format := .feePayer sender }) :=
      (List.cons.inj hbytes).2
    have hlA : (txFieldBytes { tx with feeToken := A }
        { format := .feePayer sender }).length < 2 ^ 64 := by
      rw [txWf] at hwfA
      simp only [Bool.and_eq_true] at hwfA
      have := hwfA.2
      rw [bytesWf] at this
      simpa using this
    have hlB : (txFieldBytes { tx with feeToken := B }
        { format := .feePayer sender }).length < 2 ^ 64 := by
      rw [txWf] at hwfB
      simp only [Bool.and_eq_true] at hwfB
      have := hwfB.2
      rw [bytesWf] at this
      simpa using this
    have d1 := decodesItem_encList _ _
      (decodesList_txFields { tx with feeToken := A }
        { format := .feePayer sender } hwfA) hlA
      (2 * (encList (txFieldBytes { tx with feeToken := A }
        { format := .feePayer sender })).length) [] (by omega)
    have d2 := decodesItem_encList _ _
      (decodesList_txFields { tx with feeToken := B }
        { format := .feePayer sender } hwfB) hlB
      (2 * (encList (txFieldBytes { tx with feeToken := B }
        { format := .feePayer sender })).length) [] (by omega)
    rw [hlist] at d1
    have hpair := Option.some.inj (d1.symm.trans d2)
    have hitem : Item.list (txFieldItems { tx with feeToken := A }
          { format := .feePayer sender }) =
        .list (txFieldItems { tx with feeToken := B }
          { format := .feePayer sender }) :=
      congrArg Prod.fst hpair
    have hits := Item.list.inj hitem
    rw [txFieldItems, txFieldItems] at hits
    rw [show sigTrailerItems { tx with feeToken := A }
      { format := .feePayer sender } = [] from rfl] at hits
    rw [show sigTrailerItems { tx with feeToken := B }
      { format := .feePayer sender } = [] from rfl] at hits
    rw [List.append_nil, List.append_nil] at hits
    simp only [List.cons.injEq] at hits
    exact optStrItem_inj A B hcA hcB hits.2.2.2.2.2.2.2.2.2.2.1
  · intro sg fp
    rfl

/-- C3 witness: with the identity hash, changing the fee token from a token
address to absent changes the fee-payer signing payload of the single-call
envelope, and the primary signing payload is unchanged under any signature
and fee-payer values. -/
theorem hash_domain_separation_witness :
    getFeePayerSignPayload (fun bs => bs)
        { fromDraft draft7099 with feeToken := some addr7099 } senderF39f ≠
      getFeePayerSignPayload (fun bs => bs)
        { fromDraft draft7099 with feeToken := none } senderF39f ∧
    ∀ sg fp, getSignPayload (fun bs => bs)
        { fromDraft draft7099 with signature := sg, feePayerSignature := fp } =
      getSignPayload (fun bs => bs) (fromDraft draft7099) :=
  hash_domain_separation (fun bs => bs) (fun _ _ h => h) (fromDraft draft7099)
    senderF39f (some addr7099) none (by decide) (by decide) (by decide)
    (by decide) (by decide)
